import Mathlib

/-!
# Forward kinematics (`KinematicsModule/forwardkinematics.h`)

A shallow embedding of the two C functions `T_c` (Denavit-Hartenberg transform
builder) and `dot_c` (in-place 4x4 matrix composer).

Modelling decisions:

* `double` values are elements of a type `R`; the definitions only use the
  operations the C code uses (`+`, `*`, unary `-`, the literals `0` and `1`), so
  they run on any numeric type, and they add and multiply in the order of the
  C expressions.
* Theorems about `dot_c` and about the structure of `T_c` results assume no
  algebraic law of `R`: sums are written out left to right, and a law that a
  statement needs (such as `0 * x = 0`, which fails for an infinite `x`) is a
  hypothesis about the values involved (`Tame`).  These theorems hold for IEEE
  doubles because they hold for every arithmetic.
* `Double` is binary64 arithmetic: finite values are rationals, every operation
  rounds its exact result to nearest, ties to even, with gradual underflow and
  overflow to infinity, and there is one NaN.  The sign of zero is not
  tracked.  Witnesses and counterexamples are evaluated in this type.
* A statement that two computations agree when nothing is rounded is phrased
  with a reading `val : R → Option S` of the exact values of the finite
  numbers (`Reads`), `S` a commutative ring.
* `cos` and `sin` come from the C library, not from this repository; they are
  parameters of `T_c`.  Over `Double` they are instantiated with a table of
  correctly rounded values (`Double.libmCos`, `Double.libmSin`); the theorems
  on orthonormality and the determinant take any `cos`, `sin` and product on
  `ℝ` that are accurate to `u` and bound the defect in terms of `u`.
* Memory is a heap of blocks.  A pointer is the identifier of a block, a block
  is the list of its cells, and a freed block stays in the heap as `none`.
  Allocation always succeeds (the C code never checks for a null result).
  The cells of a `malloc` block start with indeterminate contents, supplied by
  the parameter `junk`.
* A memory access outside a live block is a fault: every operation returns
  `Except Fault`.
-/

namespace URKinematics

/-- A pointer is the identifier of an allocated block. -/
abbrev Ptr := Nat

/-- The heap: every block allocated so far, in allocation order; `none` marks a
freed block. -/
abbrev Heap (R : Type) := List (Option (List R))

/-- The ways a memory access can go wrong. -/
inductive Fault where
  | badPointer
  | outOfBounds
  deriving DecidableEq, Repr

namespace Heap

variable {R : Type}

/-- The cells of the live block `p`, if `p` is allocated and not freed. -/
def block (h : Heap R) (p : Ptr) : Option (List R) :=
  match h[p]? with
  | some (some l) => some l
  | _ => none

/-- Read of `p[i]`; a fault outside a live block. -/
def load (h : Heap R) (p : Ptr) (i : Nat) : Except Fault R :=
  match h.block p with
  | some l =>
    match l[i]? with
    | some x => .ok x
    | none => .error .outOfBounds
  | none => .error .badPointer

/-- Write `p[i] = v`; a fault outside a live block. -/
def store (h : Heap R) (p : Ptr) (i : Nat) (v : R) : Except Fault (Heap R) :=
  match h.block p with
  | some l => if i < l.length then .ok (h.set p (some (l.set i v))) else .error .outOfBounds
  | none => .error .badPointer

/-- Allocation of `n` cells by `malloc(n * sizeof(double))`: a fresh block whose cell `i`
holds the indeterminate value `junk i`. -/
def malloc (h : Heap R) (n : Nat) (junk : Nat → R) : Ptr × Heap R :=
  (h.length, h ++ [some ((List.range n).map junk)])

/-- Allocation of `n` cells by `calloc(n, sizeof(double))`: a fresh block of zeros. -/
def calloc [Zero R] (h : Heap R) (n : Nat) : Ptr × Heap R :=
  (h.length, h ++ [some (List.replicate n 0)])

/-- Release of block `p` by `free(p)`; a fault if `p` is not a live block. -/
def free (h : Heap R) (p : Ptr) : Except Fault (Heap R) :=
  match h.block p with
  | some _ => .ok (h.set p none)
  | none => .error .badPointer

end Heap

section Code

variable {R : Type}

/-- The function `T_c` of `forwardkinematics.h`: allocates a zeroed 16-cell block,
assigns twelve of its cells and returns the pointer to it. -/
def T_c [Zero R] [One R] [Neg R] [Mul R] (cos sin : R → R)
    (h : Heap R) (theta d r alpha : R) : Except Fault (Ptr × Heap R) := do
  let cos_t := cos theta
  let sin_t := sin theta
  let cos_a := cos alpha
  let sin_a := sin alpha
  let (result, h) := h.calloc 16
  let h ← h.store result 0 cos_t
  let h ← h.store result 1 ((-sin_t) * cos_a)
  let h ← h.store result 2 (sin_t * sin_a)
  let h ← h.store result 3 (r * cos_t)
  let h ← h.store result 4 sin_t
  let h ← h.store result 5 (cos_t * cos_a)
  let h ← h.store result 6 ((-cos_t) * sin_a)
  let h ← h.store result 7 (r * sin_t)
  let h ← h.store result 9 sin_a
  let h ← h.store result 10 cos_a
  let h ← h.store result 11 d
  let h ← h.store result 15 1
  return (result, h)

/-- The copy loop `for (i = 0; i < 16; i++) B[i] = result[i];` of `dot_c`, started at
index `i` with `n` iterations left. -/
def dot_c_copy (B result : Ptr) : Nat → Nat → Heap R → Except Fault (Heap R)
  | 0, _, h => .ok h
  | n + 1, i, h => do
    let h ← h.store B i (← h.load result i)
    dot_c_copy B result n (i + 1) h

set_option maxRecDepth 100000 in
/-- The function `dot_c` of `forwardkinematics.h`: computes the sixteen entries of the
product into a scratch block, copies the scratch block over `B` and frees it. -/
def dot_c [Add R] [Mul R] (junk : Nat → R) (h : Heap R) (A B : Ptr) :
    Except Fault (Heap R) := do
  let (result, h) := h.malloc 16 junk
  let h ← h.store result 0 ((← h.load A 0) * (← h.load B 0) + (← h.load A 1) * (← h.load B 4) + (← h.load A 2) * (← h.load B 8) + (← h.load A 3) * (← h.load B 12))
  let h ← h.store result 1 ((← h.load A 0) * (← h.load B 1) + (← h.load A 1) * (← h.load B 5) + (← h.load A 2) * (← h.load B 9) + (← h.load A 3) * (← h.load B 13))
  let h ← h.store result 2 ((← h.load A 0) * (← h.load B 2) + (← h.load A 1) * (← h.load B 6) + (← h.load A 2) * (← h.load B 10) + (← h.load A 3) * (← h.load B 14))
  let h ← h.store result 3 ((← h.load A 0) * (← h.load B 3) + (← h.load A 1) * (← h.load B 7) + (← h.load A 2) * (← h.load B 11) + (← h.load A 3) * (← h.load B 15))
  let h ← h.store result 4 ((← h.load A 4) * (← h.load B 0) + (← h.load A 5) * (← h.load B 4) + (← h.load A 6) * (← h.load B 8) + (← h.load A 7) * (← h.load B 12))
  let h ← h.store result 5 ((← h.load A 4) * (← h.load B 1) + (← h.load A 5) * (← h.load B 5) + (← h.load A 6) * (← h.load B 9) + (← h.load A 7) * (← h.load B 13))
  let h ← h.store result 6 ((← h.load A 4) * (← h.load B 2) + (← h.load A 5) * (← h.load B 6) + (← h.load A 6) * (← h.load B 10) + (← h.load A 7) * (← h.load B 14))
  let h ← h.store result 7 ((← h.load A 4) * (← h.load B 3) + (← h.load A 5) * (← h.load B 7) + (← h.load A 6) * (← h.load B 11) + (← h.load A 7) * (← h.load B 15))
  let h ← h.store result 8 ((← h.load A 8) * (← h.load B 0) + (← h.load A 9) * (← h.load B 4) + (← h.load A 10) * (← h.load B 8) + (← h.load A 11) * (← h.load B 12))
  let h ← h.store result 9 ((← h.load A 8) * (← h.load B 1) + (← h.load A 9) * (← h.load B 5) + (← h.load A 10) * (← h.load B 9) + (← h.load A 11) * (← h.load B 13))
  let h ← h.store result 10 ((← h.load A 8) * (← h.load B 2) + (← h.load A 9) * (← h.load B 6) + (← h.load A 10) * (← h.load B 10) + (← h.load A 11) * (← h.load B 14))
  let h ← h.store result 11 ((← h.load A 8) * (← h.load B 3) + (← h.load A 9) * (← h.load B 7) + (← h.load A 10) * (← h.load B 11) + (← h.load A 11) * (← h.load B 15))
  let h ← h.store result 12 ((← h.load A 12) * (← h.load B 0) + (← h.load A 13) * (← h.load B 4) + (← h.load A 14) * (← h.load B 8) + (← h.load A 15) * (← h.load B 12))
  let h ← h.store result 13 ((← h.load A 12) * (← h.load B 1) + (← h.load A 13) * (← h.load B 5) + (← h.load A 14) * (← h.load B 9) + (← h.load A 15) * (← h.load B 13))
  let h ← h.store result 14 ((← h.load A 12) * (← h.load B 2) + (← h.load A 13) * (← h.load B 6) + (← h.load A 14) * (← h.load B 10) + (← h.load A 15) * (← h.load B 14))
  let h ← h.store result 15 ((← h.load A 12) * (← h.load B 3) + (← h.load A 13) * (← h.load B 7) + (← h.load A 14) * (← h.load B 11) + (← h.load A 15) * (← h.load B 15))
  let h ← dot_c_copy B result 16 0 h
  h.free result

end Code


section Vocabulary

variable {R : Type}

/-- The 4x4 matrix stored row-major in a block: entry `(i, j)` is cell `4 * i + j`. -/
def toMatrix [Zero R] (l : List R) : Matrix (Fin 4) (Fin 4) R :=
  Matrix.of fun i j => l.getD (4 * i.val + j.val) 0

/-- The row-major cells of a 4x4 matrix. -/
def ofMatrix (M : Matrix (Fin 4) (Fin 4) R) : List R :=
  [M 0 0, M 0 1, M 0 2, M 0 3, M 1 0, M 1 1, M 1 2, M 1 3,
   M 2 0, M 2 1, M 2 2, M 2 3, M 3 0, M 3 1, M 3 2, M 3 3]

/-- The upper-left 3x3 block (the rotation part) of the matrix stored in a block. -/
def rotBlock [Zero R] (l : List R) : Matrix (Fin 3) (Fin 3) R :=
  Matrix.of fun i j => l.getD (4 * i.val + j.val) 0

/-- The cells 12..15 of a block are `(0, 0, 0, 1)`. -/
def BottomRow [Zero R] [One R] (l : List R) : Prop :=
  l[12]? = some 0 ∧ l[13]? = some 0 ∧ l[14]? = some 0 ∧ l[15]? = some 1

instance [Zero R] [One R] [DecidableEq R] (l : List R) : Decidable (BottomRow l) :=
  inferInstanceAs
    (Decidable (l[12]? = some 0 ∧ l[13]? = some 0 ∧ l[14]? = some 0 ∧ l[15]? = some 1))

/-- Every row of `M` has squared length 1 and two distinct rows have dot product 0. -/
def RowsOrthonormal [CommRing R] (M : Matrix (Fin 3) (Fin 3) R) : Prop :=
  (∀ i, ∑ k, M i k * M i k = 1) ∧ (∀ i j, i ≠ j → ∑ k, M i k * M j k = 0)

/-- Every column of `M` has squared length 1 and two distinct columns have dot product 0. -/
def ColsOrthonormal [CommRing R] (M : Matrix (Fin 3) (Fin 3) R) : Prop :=
  (∀ j, ∑ k, M k j * M k j = 1) ∧ (∀ i j, i ≠ j → ∑ k, M k i * M k j = 0)

instance [CommRing R] [DecidableEq R] (M : Matrix (Fin 3) (Fin 3) R) :
    Decidable (RowsOrthonormal M) :=
  inferInstanceAs (Decidable
    ((∀ i, ∑ k, M i k * M i k = 1) ∧ (∀ i j, i ≠ j → ∑ k, M i k * M j k = 0)))

instance [CommRing R] [DecidableEq R] (M : Matrix (Fin 3) (Fin 3) R) :
    Decidable (ColsOrthonormal M) :=
  inferInstanceAs (Decidable
    ((∀ j, ∑ k, M k j * M k j = 1) ∧ (∀ i j, i ≠ j → ∑ k, M k i * M k j = 0)))

/-- A rigid transform: sixteen cells, bottom row `(0, 0, 0, 1)`, orthonormal rotation block. -/
def Rigid [CommRing R] (l : List R) : Prop :=
  l.length = 16 ∧ BottomRow l ∧ RowsOrthonormal (rotBlock l) ∧ ColsOrthonormal (rotBlock l)

/-- The sixteen cells of the identity matrix. -/
def identityCells [Zero R] [One R] : List R :=
  [1, 0, 0, 0, 0, 1, 0, 0, 0, 0, 1, 0, 0, 0, 0, 1]

/-- The sixteen cells that `dot_c` computes from the cells `a` of `A` and `b` of `B`
(`result[0]` to `result[15]` of the source): cell `4 * i + j` is
`a[4i] * b[j] + a[4i+1] * b[4+j] + a[4i+2] * b[8+j] + a[4i+3] * b[12+j]`, the three additions
made from left to right. -/
def productCells [Zero R] [Add R] [Mul R] (a b : List R) : List R :=
  [a.getD 0 0 * b.getD 0 0 + a.getD 1 0 * b.getD 4 0 + a.getD 2 0 * b.getD 8 0 + a.getD 3 0 * b.getD 12 0,
   a.getD 0 0 * b.getD 1 0 + a.getD 1 0 * b.getD 5 0 + a.getD 2 0 * b.getD 9 0 + a.getD 3 0 * b.getD 13 0,
   a.getD 0 0 * b.getD 2 0 + a.getD 1 0 * b.getD 6 0 + a.getD 2 0 * b.getD 10 0 + a.getD 3 0 * b.getD 14 0,
   a.getD 0 0 * b.getD 3 0 + a.getD 1 0 * b.getD 7 0 + a.getD 2 0 * b.getD 11 0 + a.getD 3 0 * b.getD 15 0,
   a.getD 4 0 * b.getD 0 0 + a.getD 5 0 * b.getD 4 0 + a.getD 6 0 * b.getD 8 0 + a.getD 7 0 * b.getD 12 0,
   a.getD 4 0 * b.getD 1 0 + a.getD 5 0 * b.getD 5 0 + a.getD 6 0 * b.getD 9 0 + a.getD 7 0 * b.getD 13 0,
   a.getD 4 0 * b.getD 2 0 + a.getD 5 0 * b.getD 6 0 + a.getD 6 0 * b.getD 10 0 + a.getD 7 0 * b.getD 14 0,
   a.getD 4 0 * b.getD 3 0 + a.getD 5 0 * b.getD 7 0 + a.getD 6 0 * b.getD 11 0 + a.getD 7 0 * b.getD 15 0,
   a.getD 8 0 * b.getD 0 0 + a.getD 9 0 * b.getD 4 0 + a.getD 10 0 * b.getD 8 0 + a.getD 11 0 * b.getD 12 0,
   a.getD 8 0 * b.getD 1 0 + a.getD 9 0 * b.getD 5 0 + a.getD 10 0 * b.getD 9 0 + a.getD 11 0 * b.getD 13 0,
   a.getD 8 0 * b.getD 2 0 + a.getD 9 0 * b.getD 6 0 + a.getD 10 0 * b.getD 10 0 + a.getD 11 0 * b.getD 14 0,
   a.getD 8 0 * b.getD 3 0 + a.getD 9 0 * b.getD 7 0 + a.getD 10 0 * b.getD 11 0 + a.getD 11 0 * b.getD 15 0,
   a.getD 12 0 * b.getD 0 0 + a.getD 13 0 * b.getD 4 0 + a.getD 14 0 * b.getD 8 0 + a.getD 15 0 * b.getD 12 0,
   a.getD 12 0 * b.getD 1 0 + a.getD 13 0 * b.getD 5 0 + a.getD 14 0 * b.getD 9 0 + a.getD 15 0 * b.getD 13 0,
   a.getD 12 0 * b.getD 2 0 + a.getD 13 0 * b.getD 6 0 + a.getD 14 0 * b.getD 10 0 + a.getD 15 0 * b.getD 14 0,
   a.getD 12 0 * b.getD 3 0 + a.getD 13 0 * b.getD 7 0 + a.getD 14 0 * b.getD 11 0 + a.getD 15 0 * b.getD 15 0]

/-- The product of a chain of matrices as a left-to-right fold with `dot_c` computes it:
`((T1 * T2) * T3) * ...`, every product taken by `productCells`. -/
def productLeft [Zero R] [Add R] [Mul R] : List (List R) → List R
  | [] => []
  | t :: ts => ts.foldl productCells t

/-- The cells of block `p`; no cells if `p` is not a live block. -/
def Heap.cells (h : Heap R) (p : Ptr) : List R :=
  (h.block p).getD []

/-- The number `x` behaves under the constants 0 and 1 as a finite number does: a product
with 0 is 0, and a product with 1 or a sum with 0 is `x`.  Every finite double is tame; an
infinity and NaN are not (`0 * inf` is NaN). -/
def Tame [Zero R] [One R] [Add R] [Mul R] (x : R) : Prop :=
  0 * x = 0 ∧ x * 0 = 0 ∧ 1 * x = x ∧ x * 1 = x ∧ x + 0 = x ∧ 0 + x = x

instance [Zero R] [One R] [Add R] [Mul R] [DecidableEq R] (x : R) : Decidable (Tame x) :=
  inferInstanceAs
    (Decidable (0 * x = 0 ∧ x * 0 = 0 ∧ 1 * x = x ∧ x * 1 = x ∧ x + 0 = x ∧ 0 + x = x))

/-- The list `l` of numbers of the program holds finite values, and `l'` lists their exact
values: `val x` is the exact value of `x`, or `none` if `x` is not a finite number. -/
def Reads {S : Type} (val : R → Option S) (l : List R) (l' : List S) : Prop :=
  l.map val = l'.map some

instance {S : Type} [DecidableEq S] (val : R → Option S) (l : List R) (l' : List S) :
    Decidable (Reads val l l') :=
  inferInstanceAs (Decidable (l.map val = l'.map some))

/-- A call a client can make: build a transform with `T_c`, or compose two with `dot_c`. -/
inductive Call (R : Type) where
  | build (theta d r alpha : R)
  | compose (A B : Ptr)

/-- A client program: a sequence of calls of `T_c` and `dot_c`.  The pointers handed to
`dot_c` must be live blocks (results of earlier `T_c` calls); the scratch block that
`dot_c` allocates at pointer `p` starts with contents `junk p`. -/
def run [Zero R] [One R] [Neg R] [Add R] [Mul R] (cos sin : R → R) (junk : Ptr → Nat → R) :
    List (Call R) → Heap R → Except Fault (Heap R)
  | [], h => .ok h
  | .build theta d r alpha :: cs, h => do
    let (_, h) ← T_c cos sin h theta d r alpha
    run cos sin junk cs h
  | .compose A B :: cs, h => do
    if (h.block A).isSome && (h.block B).isSome then
      let h ← dot_c (junk h.length) h A B
      run cos sin junk cs h
    else
      throw .badPointer

/-- The fold of a chain of transforms: `dot_c(T_1, T_2)`, `dot_c(T_2, T_3)`, ... in this
order, over the list of their pointers. -/
def chain [Add R] [Mul R] (junk : Ptr → Nat → R) : List Ptr → Heap R → Except Fault (Heap R)
  | A :: B :: ps, h => do
    let h ← dot_c (junk h.length) h A B
    chain junk (B :: ps) h
  | _, h => .ok h

end Vocabulary


section Doubles

/-- A value of the C type `double` (IEEE 754 binary64): a finite number, an infinity or NaN.
A finite value is held as the rational number it denotes.  The sign of a zero and the
payload of a NaN are not tracked: `+0` and `-0` compare equal in C, and the code has no
operation (no division) that tells them apart. -/
inductive Double where
  | finite (q : ℚ)
  | inf (negative : Bool)
  | nan
  deriving DecidableEq

/-- The number of binary digits of `n` (0 for `n = 0`); the first argument bounds the
recursion. -/
def bitLength : Nat → Nat → Nat
  | 0, _ => 0
  | fuel + 1, n => if n = 0 then 0 else bitLength fuel (n / 2) + 1

/-- The integer nearest to `n / d`, a tie going to the even one. -/
def roundHalfEven (n d : Nat) : Nat :=
  let q := n / d
  let r := n % d
  if 2 * r < d then q else if d < 2 * r then q + 1 else if q % 2 = 0 then q else q + 1

/-- The exponent `e` with `2 ^ e ≤ n / d < 2 ^ (e + 1)`, for positive `n` and `d`. -/
def binade (n d : Nat) : Int :=
  let e : Int := (bitLength n n : Int) - (bitLength d d : Int)
  if d * 2 ^ e.toNat ≤ n * 2 ^ (-e).toNat then e else e - 1

namespace Double

/-- Rounding of a rational number to binary64, to nearest with ties to even: 53 significant
bits, exponents from -1022 (below that the spacing stays `2 ^ (-1074)`), and overflow to an
infinity from `2 ^ 1024` on. -/
def ofRat (x : ℚ) : Double :=
  if x = 0 then finite 0 else
    let n := x.num.natAbs
    let d := x.den
    let e := max (binade n d) (-1022)
    let s := e - 52
    let m := roundHalfEven (n * 2 ^ (-s).toNat) (d * 2 ^ s.toNat)
    if 1024 ≤ e + (if m = 2 ^ 53 then 1 else 0) then inf (decide (x < 0))
    else finite (mkRat ((if x < 0 then -1 else 1) * (m * 2 ^ s.toNat : Nat)) (2 ^ (-s).toNat))

/-- The sum `x + y` of two doubles. -/
def add : Double → Double → Double
  | finite x, finite y => ofRat (x + y)
  | finite _, inf b => inf b
  | inf a, finite _ => inf a
  | inf a, inf b => if a = b then inf a else nan
  | _, _ => nan

/-- The product `x * y` of two doubles. -/
def mul : Double → Double → Double
  | finite x, finite y => ofRat (x * y)
  | finite x, inf b => if x = 0 then nan else inf (xor (decide (x < 0)) b)
  | inf a, finite y => if y = 0 then nan else inf (xor a (decide (y < 0)))
  | inf a, inf b => inf (xor a b)
  | _, _ => nan

/-- The unary minus `-x` of a double. -/
def neg : Double → Double
  | finite x => finite (-x)
  | inf a => inf (!a)
  | nan => nan

instance : Zero Double := ⟨finite 0⟩

instance : One Double := ⟨finite 1⟩

instance : Neg Double := ⟨neg⟩

instance : Add Double := ⟨add⟩

instance : Mul Double := ⟨mul⟩

/-- The exact value of a finite double. -/
def value : Double → Option ℚ
  | finite q => some q
  | _ => none

/-- The double is a finite number of binary64 (rounding leaves it as it is). -/
def IsFinite : Double → Prop
  | finite q => ofRat q = finite q
  | _ => False

instance (x : Double) : Decidable x.IsFinite :=
  match x with
  | finite q => inferInstanceAs (Decidable (ofRat q = finite q))
  | inf _ => isFalse not_false
  | nan => isFalse not_false

/-- The double nearest to pi / 2: the value of `M_PI / 2` in C. -/
def halfPi : Double := ofRat 1.5707963267948966

/-- The double nearest to pi: the value of `M_PI` in C. -/
def pi : Double := ofRat 3.141592653589793

/-- The C library's `cos` at the arguments used in this file: the correctly rounded cosine
of each argument, which is what glibc returns for it.  NaN stands for an argument that is
not tabulated. -/
def libmCos (x : Double) : Double :=
  if x = 0 then 1
  else if x = ofRat 0.5 then ofRat 0.8775825618903728
  else if x = ofRat 0.7 then ofRat 0.7648421872844885
  else if x = 1 then ofRat 0.5403023058681398
  else if x = ofRat 1.3 then ofRat 0.26749882862458735
  else if x = ofRat 1.4 then ofRat 0.16996714290024104
  else if x = halfPi then ofRat 6.123233995736766e-17
  else if x = pi then ofRat (-1)
  else nan

/-- The C library's `sin` at the arguments used in this file: the correctly rounded sine of
each argument, which is what glibc returns for it.  NaN stands for an argument that is not
tabulated. -/
def libmSin (x : Double) : Double :=
  if x = 0 then 0
  else if x = ofRat 0.5 then ofRat 0.479425538604203
  else if x = ofRat 0.7 then ofRat 0.644217687237691
  else if x = 1 then ofRat 0.8414709848078965
  else if x = ofRat 1.3 then ofRat 0.963558185417193
  else if x = ofRat 1.4 then ofRat 0.9854497299884601
  else if x = halfPi then 1
  else if x = pi then ofRat 1.2246467991473532e-16
  else nan

end Double

instance {ε α : Type} [DecidableEq ε] [DecidableEq α] : DecidableEq (Except ε α)
  | .ok a, .ok b => if h : a = b then isTrue (h ▸ rfl) else isFalse fun e => h (Except.ok.inj e)
  | .error a, .error b =>
    if h : a = b then isTrue (h ▸ rfl) else isFalse fun e => h (Except.error.inj e)
  | .ok _, .error _ => isFalse fun e => nomatch e
  | .error _, .ok _ => isFalse fun e => nomatch e

end Doubles

section HeapLemmas

variable {R : Type}

theorem Heap.block_eq_some_iff (h : Heap R) (p : Ptr) (l : List R) :
    h.block p = some l ↔ h[p]? = some (some l) := by
  unfold Heap.block
  split
  · next l' heq => simp [heq]
  · next hne =>
    constructor
    · intro hc; cases hc
    · intro hc; exact absurd hc (hne l)

theorem Heap.block_lt {h : Heap R} {p : Ptr} {l : List R} (hp : h.block p = some l) :
    p < h.length := by
  rw [Heap.block_eq_some_iff] at hp
  exact (List.getElem?_eq_some_iff.1 hp).1

theorem Heap.block_append_left (h t : Heap R) {p : Ptr} (hp : p < h.length) :
    Heap.block (h ++ t) p = h.block p := by
  unfold Heap.block
  rw [List.getElem?_append_left hp]

theorem Heap.block_append_length (h : Heap R) (x : Option (List R)) (t : Heap R) {p : Ptr}
    (hp : p = h.length) :
    Heap.block (h ++ x :: t) p = x := by
  subst hp
  have hx : (h ++ x :: t)[h.length]? = some x := by
    rw [List.getElem?_append_right (Nat.le_refl _)]
    simp
  unfold Heap.block
  rw [hx]
  cases x <;> rfl

theorem Heap.block_set_self (h : Heap R) {p : Ptr} (x : Option (List R)) (hp : p < h.length) :
    Heap.block (h.set p x) p = x := by
  unfold Heap.block
  rw [List.getElem?_set_self hp]
  cases x <;> rfl

theorem Heap.block_set_ne (h : Heap R) {p q : Ptr} (x : Option (List R)) (hpq : p ≠ q) :
    Heap.block (h.set p x) q = h.block q := by
  unfold Heap.block
  rw [List.getElem?_set_ne hpq]

end HeapLemmas

section AccessLemmas

variable {R : Type}

theorem Heap.load_of_block {h : Heap R} {p : Ptr} {l : List R} (hp : h.block p = some l)
    (i : Nat) :
    h.load p i = match l[i]? with
      | some x => .ok x
      | none => .error .outOfBounds := by
  unfold Heap.load
  rw [hp]

theorem Heap.store_of_block {h : Heap R} {p : Ptr} {l : List R} (hp : h.block p = some l)
    (i : Nat) (v : R) :
    h.store p i v =
      if i < l.length then .ok (h.set p (some (l.set i v))) else .error .outOfBounds := by
  unfold Heap.store
  rw [hp]

theorem Heap.free_of_block {h : Heap R} {p : Ptr} {l : List R} (hp : h.block p = some l) :
    h.free p = .ok (h.set p none) := by
  unfold Heap.free
  rw [hp]

/-- Reads of an old block are not affected by later allocations. -/
theorem Heap.load_append_left {h : Heap R} {p : Ptr} {l : List R} (hp : h.block p = some l)
    (t : Heap R) (i : Nat) :
    Heap.load (h ++ t) p i = match l[i]? with
      | some x => .ok x
      | none => .error .outOfBounds :=
  Heap.load_of_block ((Heap.block_append_left h t (Heap.block_lt hp)).trans hp) i

/-- Reads of the most recently allocated block. -/
theorem Heap.load_last (h : Heap R) (s : List R) {p : Ptr} (hp : p = h.length) (i : Nat) :
    Heap.load (h ++ [some s]) p i = match s[i]? with
      | some x => .ok x
      | none => .error .outOfBounds :=
  Heap.load_of_block (Heap.block_append_length h (some s) [] hp) i

/-- Writes to the most recently allocated block. -/
theorem Heap.store_last (h : Heap R) (s : List R) {p : Ptr} (hp : p = h.length) (i : Nat)
    (v : R) :
    Heap.store (h ++ [some s]) p i v =
      if i < s.length then .ok (h ++ [some (s.set i v)]) else .error .outOfBounds := by
  rw [Heap.store_of_block (Heap.block_append_length h (some s) [] hp) i v]
  subst hp
  simp

/-- Release of the most recently allocated block. -/
theorem Heap.free_last (h : Heap R) (s : List R) {p : Ptr} (hp : p = h.length) :
    Heap.free (h ++ [some s]) p = .ok (h ++ [none]) := by
  rw [Heap.free_of_block (Heap.block_append_length h (some s) [] hp)]
  subst hp
  simp

/-- Writes to an old block, in a heap with later allocations. -/
theorem Heap.store_append_left {h : Heap R} {p : Ptr} {l : List R} (hp : h.block p = some l)
    (t : Heap R) (i : Nat) (v : R) :
    Heap.store (h ++ t) p i v =
      if i < l.length then .ok (h.set p (some (l.set i v)) ++ t) else .error .outOfBounds := by
  have hlt := Heap.block_lt hp
  rw [Heap.store_of_block ((Heap.block_append_left h t hlt).trans hp) i v,
    List.set_append_left _ _ hlt]

/-- Writes to an old block that has been written before. -/
theorem Heap.store_set_append (h : Heap R) {p : Ptr} (hp : p < h.length) (l : List R)
    (t : Heap R) (i : Nat) (v : R) :
    Heap.store (h.set p (some l) ++ t) p i v =
      if i < l.length then .ok (h.set p (some (l.set i v)) ++ t) else .error .outOfBounds := by
  have hb : Heap.block (h.set p (some l)) p = some l := Heap.block_set_self h (some l) hp
  rw [Heap.store_append_left hb t i v, List.set_set]

theorem Except.ok_bind {ε α β : Type} (x : α) (f : α → Except ε β) :
    (Except.ok x >>= f) = f x := rfl

theorem cells_eq [Zero R] (l : List R) (hl : l.length = 16) :
    l = [l.getD 0 0, l.getD 1 0, l.getD 2 0, l.getD 3 0, l.getD 4 0, l.getD 5 0, l.getD 6 0,
      l.getD 7 0, l.getD 8 0, l.getD 9 0, l.getD 10 0, l.getD 11 0, l.getD 12 0, l.getD 13 0,
      l.getD 14 0, l.getD 15 0] := by
  apply List.ext_getElem
  · simp [hl]
  · intro i h1 _
    rw [hl] at h1
    interval_cases i <;> simp [List.getD, List.getElem?_eq_getElem, hl]

end AccessLemmas

section Evaluation

variable {R : Type}

/-- The copy loop overwrites the sixteen cells of `B` with those of the scratch block. -/
theorem dot_c_copy_cells {h : Heap R} {B : Ptr} {b0 b1 b2 b3 b4 b5 b6 b7 b8 b9 b10 b11 b12 b13 b14 b15 : R}
    (hB : h.block B = some [b0, b1, b2, b3, b4, b5, b6, b7, b8, b9, b10, b11, b12, b13, b14, b15]) (r0 r1 r2 r3 r4 r5 r6 r7 r8 r9 r10 r11 r12 r13 r14 r15 : R) :
    dot_c_copy B h.length 16 0 (h ++ [some [r0, r1, r2, r3, r4, r5, r6, r7, r8, r9, r10, r11, r12, r13, r14, r15]]) =
      .ok (h.set B (some [r0, r1, r2, r3, r4, r5, r6, r7, r8, r9, r10, r11, r12, r13, r14, r15]) ++ [some [r0, r1, r2, r3, r4, r5, r6, r7, r8, r9, r10, r11, r12, r13, r14, r15]]) := by
  have hlt := Heap.block_lt hB
  simp only [dot_c_copy, Heap.store_append_left hB, Heap.store_set_append h hlt, Heap.load_last,
    Heap.load_of_block (Heap.block_append_length _ _ _ (List.length_set _ _ _).symm),
    Except.ok_bind, bind_pure_comp, List.length_cons, List.length_nil, List.set_cons_zero,
    List.set_cons_succ, List.getElem?_cons_zero, List.getElem?_cons_succ, Nat.reduceAdd,
    Nat.reduceLT, ite_true, Nat.lt_add_one, Nat.zero_lt_succ, Nat.reduceLeDiff]
  

theorem range_sixteen : List.range 16 = [0, 1, 2, 3, 4, 5, 6, 7, 8, 9, 10, 11, 12, 13, 14, 15] := by
  decide

set_option maxRecDepth 100000 in
set_option maxHeartbeats 4000000 in
/-- Evaluation of `dot_c` on two live 16-cell blocks, which may be the same block: the call
succeeds, `B` holds the sixteen sums of products computed from the old contents, and the
freed scratch block is the only other change to the heap. -/
theorem dot_c_cells [Add R] [Mul R] (junk : Nat → R) {h : Heap R} {A B : Ptr}
    {a0 a1 a2 a3 a4 a5 a6 a7 a8 a9 a10 a11 a12 a13 a14 a15 : R}
    {b0 b1 b2 b3 b4 b5 b6 b7 b8 b9 b10 b11 b12 b13 b14 b15 : R}
    (hA : h.block A = some [a0, a1, a2, a3, a4, a5, a6, a7, a8, a9, a10, a11, a12, a13, a14, a15])
    (hB : h.block B = some [b0, b1, b2, b3, b4, b5, b6, b7, b8, b9, b10, b11, b12, b13, b14, b15]) :
    dot_c junk h A B =
      .ok (h.set B (some
       [a0 * b0 + a1 * b4 + a2 * b8 + a3 * b12,
        a0 * b1 + a1 * b5 + a2 * b9 + a3 * b13,
        a0 * b2 + a1 * b6 + a2 * b10 + a3 * b14,
        a0 * b3 + a1 * b7 + a2 * b11 + a3 * b15,
        a4 * b0 + a5 * b4 + a6 * b8 + a7 * b12,
        a4 * b1 + a5 * b5 + a6 * b9 + a7 * b13,
        a4 * b2 + a5 * b6 + a6 * b10 + a7 * b14,
        a4 * b3 + a5 * b7 + a6 * b11 + a7 * b15,
        a8 * b0 + a9 * b4 + a10 * b8 + a11 * b12,
        a8 * b1 + a9 * b5 + a10 * b9 + a11 * b13,
        a8 * b2 + a9 * b6 + a10 * b10 + a11 * b14,
        a8 * b3 + a9 * b7 + a10 * b11 + a11 * b15,
        a12 * b0 + a13 * b4 + a14 * b8 + a15 * b12,
        a12 * b1 + a13 * b5 + a14 * b9 + a15 * b13,
        a12 * b2 + a13 * b6 + a14 * b10 + a15 * b14,
        a12 * b3 + a13 * b7 + a14 * b11 + a15 * b15]) ++ [none]) := by
  simp only [dot_c, Heap.malloc, range_sixteen, List.map_cons, List.map_nil,
    Heap.load_append_left hA, Heap.load_append_left hB, Heap.store_last, Heap.free_last,
    dot_c_copy_cells hB, List.length_set,
    Except.ok_bind, bind_pure_comp, List.length_cons, List.length_nil, List.set_cons_zero,
    List.set_cons_succ, List.getElem?_cons_zero, List.getElem?_cons_succ, Nat.reduceAdd,
    Nat.reduceLT, ite_true, Nat.lt_add_one, Nat.zero_lt_succ, Nat.reduceLeDiff]

end Evaluation

section Evaluation2

variable {R : Type}

/-- Evaluation of `T_c`: the call succeeds, returns the fresh pointer and leaves the sixteen
cells below in the new block. -/
theorem T_c_cells [Zero R] [One R] [Neg R] [Mul R] (cos sin : R → R) (h : Heap R)
    (theta d r alpha : R) :
    T_c cos sin h theta d r alpha =
      .ok (h.length, h ++ [some
        [cos theta, (-sin theta) * cos alpha, sin theta * sin alpha, r * cos theta,
         sin theta, cos theta * cos alpha, (-cos theta) * sin alpha, r * sin theta,
         0, sin alpha, cos alpha, d,
         0, 0, 0, 1]]) := by
  simp only [T_c, Heap.calloc, List.replicate, Heap.store_last,
    Except.ok_bind, List.length_cons, List.length_nil, List.set_cons_zero,
    List.set_cons_succ, Nat.reduceAdd, Nat.reduceLT, ite_true, pure, Except.pure]

theorem toMatrix_ofMatrix [Zero R] (M : Matrix (Fin 4) (Fin 4) R) : toMatrix (ofMatrix M) = M := by
  ext i j
  fin_cases i <;> fin_cases j <;> rfl

theorem length_ofMatrix (M : Matrix (Fin 4) (Fin 4) R) : (ofMatrix M).length = 16 := rfl

theorem ofMatrix_toMatrix [Zero R] (l : List R) (hl : l.length = 16) :
    ofMatrix (toMatrix l) = l := by
  conv_rhs => rw [cells_eq l hl]
  rfl

theorem fin_four_val_three : ((3 : Fin 4) : ℕ) = 3 := rfl

/-- The cells of a product of two stored matrices, written out. -/
theorem ofMatrix_mul [CommRing R] (a b : List R) :
    ofMatrix (toMatrix a * toMatrix b) =
      [a.getD 0 0 * b.getD 0 0 + a.getD 1 0 * b.getD 4 0 + a.getD 2 0 * b.getD 8 0 + a.getD 3 0 * b.getD 12 0,
       a.getD 0 0 * b.getD 1 0 + a.getD 1 0 * b.getD 5 0 + a.getD 2 0 * b.getD 9 0 + a.getD 3 0 * b.getD 13 0,
       a.getD 0 0 * b.getD 2 0 + a.getD 1 0 * b.getD 6 0 + a.getD 2 0 * b.getD 10 0 + a.getD 3 0 * b.getD 14 0,
       a.getD 0 0 * b.getD 3 0 + a.getD 1 0 * b.getD 7 0 + a.getD 2 0 * b.getD 11 0 + a.getD 3 0 * b.getD 15 0,
       a.getD 4 0 * b.getD 0 0 + a.getD 5 0 * b.getD 4 0 + a.getD 6 0 * b.getD 8 0 + a.getD 7 0 * b.getD 12 0,
       a.getD 4 0 * b.getD 1 0 + a.getD 5 0 * b.getD 5 0 + a.getD 6 0 * b.getD 9 0 + a.getD 7 0 * b.getD 13 0,
       a.getD 4 0 * b.getD 2 0 + a.getD 5 0 * b.getD 6 0 + a.getD 6 0 * b.getD 10 0 + a.getD 7 0 * b.getD 14 0,
       a.getD 4 0 * b.getD 3 0 + a.getD 5 0 * b.getD 7 0 + a.getD 6 0 * b.getD 11 0 + a.getD 7 0 * b.getD 15 0,
       a.getD 8 0 * b.getD 0 0 + a.getD 9 0 * b.getD 4 0 + a.getD 10 0 * b.getD 8 0 + a.getD 11 0 * b.getD 12 0,
       a.getD 8 0 * b.getD 1 0 + a.getD 9 0 * b.getD 5 0 + a.getD 10 0 * b.getD 9 0 + a.getD 11 0 * b.getD 13 0,
       a.getD 8 0 * b.getD 2 0 + a.getD 9 0 * b.getD 6 0 + a.getD 10 0 * b.getD 10 0 + a.getD 11 0 * b.getD 14 0,
       a.getD 8 0 * b.getD 3 0 + a.getD 9 0 * b.getD 7 0 + a.getD 10 0 * b.getD 11 0 + a.getD 11 0 * b.getD 15 0,
       a.getD 12 0 * b.getD 0 0 + a.getD 13 0 * b.getD 4 0 + a.getD 14 0 * b.getD 8 0 + a.getD 15 0 * b.getD 12 0,
       a.getD 12 0 * b.getD 1 0 + a.getD 13 0 * b.getD 5 0 + a.getD 14 0 * b.getD 9 0 + a.getD 15 0 * b.getD 13 0,
       a.getD 12 0 * b.getD 2 0 + a.getD 13 0 * b.getD 6 0 + a.getD 14 0 * b.getD 10 0 + a.getD 15 0 * b.getD 14 0,
       a.getD 12 0 * b.getD 3 0 + a.getD 13 0 * b.getD 7 0 + a.getD 14 0 * b.getD 11 0 + a.getD 15 0 * b.getD 15 0] := by
  simp [ofMatrix, toMatrix, Matrix.mul_apply, Fin.sum_univ_four, fin_four_val_three]

/-- Evaluation of `dot_c` in matrix form: `B` receives the row-major cells of the product of
the matrices held by `A` and `B` (which may be the same block). -/
theorem dot_c_eval [CommRing R] (junk : Nat → R) {h : Heap R} {A B : Ptr} {a b : List R}
    (hA : h.block A = some a) (hB : h.block B = some b)
    (ha : a.length = 16) (hb : b.length = 16) :
    dot_c junk h A B = .ok (h.set B (some (ofMatrix (toMatrix a * toMatrix b))) ++ [none]) := by
  rw [cells_eq a ha] at hA
  rw [cells_eq b hb] at hB
  rw [dot_c_cells junk hA hB, ofMatrix_mul]

/-- Evaluation of `dot_c` on two live 16-cell blocks (the same block or not), for any number
type: `B` receives the sixteen cells `productCells a b`. -/
theorem dot_c_eval_cells [Zero R] [Add R] [Mul R] (junk : Nat → R) {h : Heap R} {A B : Ptr}
    {a b : List R} (hA : h.block A = some a) (hB : h.block B = some b)
    (ha : a.length = 16) (hb : b.length = 16) :
    dot_c junk h A B = .ok (h.set B (some (productCells a b)) ++ [none]) := by
  rw [cells_eq a ha] at hA
  rw [cells_eq b hb] at hB
  rw [dot_c_cells junk hA hB]
  rfl

theorem length_productCells [Zero R] [Add R] [Mul R] (a b : List R) :
    (productCells a b).length = 16 := rfl

/-- In exact arithmetic the cells `dot_c` computes are those of the matrix product. -/
theorem productCells_eq_ofMatrix [CommRing R] (a b : List R) :
    productCells a b = ofMatrix (toMatrix a * toMatrix b) :=
  (ofMatrix_mul a b).symm

/-- The live blocks after a `dot_c` call: `B` holds the new cells, every other pointer is as
before (the scratch block is freed again). -/
theorem Heap.block_set_append_none (h : Heap R) {B : Ptr} (hB : B < h.length) (x : List R)
    (p : Ptr) :
    Heap.block (h.set B (some x) ++ [none]) p = if p = B then some x else h.block p := by
  by_cases hpB : p = B
  · subst hpB
    rw [if_pos rfl, Heap.block_append_left _ _ (by simpa using hB), Heap.block_set_self h _ hB]
  · rw [if_neg hpB]
    by_cases hp : p < h.length
    · rw [Heap.block_append_left _ _ (by simpa using hp), Heap.block_set_ne h _ (Ne.symm hpB)]
    · have h1 : Heap.block (h.set B (some x) ++ [none]) p = none := by
        cases hc : Heap.block (h.set B (some x) ++ [none]) p with
        | none => rfl
        | some l =>
          have hlt := Heap.block_lt hc
          have hpe : p = (h.set B (some x)).length := by
            rw [List.length_append, List.length_set, List.length_singleton] at hlt
            rw [List.length_set]
            exact Nat.le_antisymm (Nat.lt_succ_iff.1 hlt) (Nat.not_lt.1 hp)
          rw [Heap.block_append_length _ _ _ hpe] at hc
          cases hc
      have h2 : h.block p = none := by
        cases hc : h.block p with
        | none => rfl
        | some l => exact absurd (Heap.block_lt hc) hp
      rw [h1, h2]

/-- The live blocks after an allocation. -/
theorem Heap.block_append_some (h : Heap R) (x : List R) (p : Ptr) :
    Heap.block (h ++ [some x]) p = if p = h.length then some x else h.block p := by
  by_cases hpe : p = h.length
  · rw [if_pos hpe, Heap.block_append_length _ _ _ hpe]
  · rw [if_neg hpe]
    by_cases hp : p < h.length
    · rw [Heap.block_append_left _ _ hp]
    · have h1 : Heap.block (h ++ [some x]) p = none := by
        cases hc : Heap.block (h ++ [some x]) p with
        | none => rfl
        | some l =>
          have hlt := Heap.block_lt hc
          rw [List.length_append, List.length_singleton] at hlt
          exact absurd (Nat.le_antisymm (Nat.lt_succ_iff.1 hlt) (Nat.not_lt.1 hp)) hpe
      have h2 : h.block p = none := by
        cases hc : h.block p with
        | none => rfl
        | some l => exact absurd (Heap.block_lt hc) hp
      rw [h1, h2]

end Evaluation2

section MatrixLemmas

variable {R : Type}

theorem sum_range_four {M : Type} [AddCommMonoid M] (f : ℕ → M) :
    ∑ k in Finset.range 4, f k = f 0 + f 1 + f 2 + f 3 := by
  simp [Finset.sum_range_succ]

theorem toMatrix_identityCells [CommRing R] : toMatrix (identityCells : List R) = 1 := by
  ext i j
  fin_cases i <;> fin_cases j <;> simp [toMatrix, identityCells, fin_four_val_three]

/-- The result of `dot_c`, read back: the call succeeds and `B` holds the product. -/
theorem dot_c_block [CommRing R] (junk : Nat → R) {h : Heap R} {A B : Ptr} {a b : List R}
    (hA : h.block A = some a) (hB : h.block B = some b)
    (ha : a.length = 16) (hb : b.length = 16) :
    ∃ h', dot_c junk h A B = .ok h' ∧ h'.length = h.length + 1 ∧
      h'.block B = some (ofMatrix (toMatrix a * toMatrix b)) ∧
      ∀ p, p ≠ B → h'.block p = h.block p := by
  refine ⟨_, dot_c_eval junk hA hB ha hb, ?_, ?_, ?_⟩
  · simp
  · rw [Heap.block_set_append_none h (Heap.block_lt hB), if_pos rfl]
  · intro p hp
    rw [Heap.block_set_append_none h (Heap.block_lt hB), if_neg hp]

/-- The result of `dot_c` for any number type, read back: the call succeeds, `B` holds the
cells `productCells a b`, the freed scratch block is the one new entry of the heap and no
other block changes. -/
theorem dot_c_block_cells [Zero R] [Add R] [Mul R] (junk : Nat → R) {h : Heap R} {A B : Ptr}
    {a b : List R} (hA : h.block A = some a) (hB : h.block B = some b)
    (ha : a.length = 16) (hb : b.length = 16) :
    ∃ h', dot_c junk h A B = .ok h' ∧ h'.length = h.length + 1 ∧
      h'.block B = some (productCells a b) ∧
      ∀ p, p ≠ B → h'.block p = h.block p := by
  refine ⟨_, dot_c_eval_cells junk hA hB ha hb, ?_, ?_, ?_⟩
  · simp
  · rw [Heap.block_set_append_none h (Heap.block_lt hB), if_pos rfl]
  · intro p hp
    rw [Heap.block_set_append_none h (Heap.block_lt hB), if_neg hp]

theorem Heap.block_length_eq_none (h : Heap R) : h.block h.length = none := by
  cases hc : h.block h.length with
  | none => rfl
  | some l => exact absurd (Heap.block_lt hc) (Nat.lt_irrefl _)

theorem Heap.block_nil (p : Ptr) : Heap.block ([] : Heap R) p = none := rfl

theorem Heap.cells_of_block {h : Heap R} {p : Ptr} {l : List R} (hp : h.block p = some l) :
    h.cells p = l := by
  unfold Heap.cells
  rw [hp]
  rfl

end MatrixLemmas


section TameLemmas

variable {R : Type}

/-- The sixteen cells `dot_c` computes, by row `i` and column `j`. -/
theorem productCells_getElem [Zero R] [Add R] [Mul R] (a b : List R) (i j : Nat)
    (hi : i < 4) (hj : j < 4) :
    (productCells a b)[4 * i + j]? =
      some (a.getD (4 * i) 0 * b.getD j 0 + a.getD (4 * i + 1) 0 * b.getD (4 + j) 0 +
        a.getD (4 * i + 2) 0 * b.getD (8 + j) 0 + a.getD (4 * i + 3) 0 * b.getD (12 + j) 0) := by
  interval_cases i <;> interval_cases j <;> rfl

theorem getD_mem_of_lt {α : Type} (l : List α) (d : α) {i : Nat} (hi : i < l.length) :
    l.getD i d ∈ l := by
  rw [List.getD_eq_getElem _ _ hi]
  exact List.getElem_mem hi

/-- Two 16-cell lists with the same cells are equal. -/
theorem ext_sixteen {l m : List R} (hl : l.length = 16) (hm : m.length = 16)
    (h : ∀ i j, i < 4 → j < 4 → l[4 * i + j]? = m[4 * i + j]?) : l = m := by
  apply List.ext_getElem?
  intro n
  by_cases hn : n < 16
  · have e : n = 4 * (n / 4) + n % 4 := (Nat.div_add_mod n 4).symm
    rw [e]
    exact h (n / 4) (n % 4) (by omega) (Nat.mod_lt _ (by decide))
  · rw [List.getElem?_eq_none (by omega), List.getElem?_eq_none (by omega)]

theorem getElem?_eq_some_getD [Zero R] (l : List R) {n : Nat} (hn : n < l.length) :
    l[n]? = some (l.getD n 0) := by
  rw [List.getD_eq_getElem _ _ hn, List.getElem?_eq_getElem hn]

/-- Every cell of a list of tame numbers, read with default 0, is tame. -/
theorem tame_getD [Zero R] [One R] [Add R] [Mul R] {b : List R} (h0 : Tame (0 : R))
    (hb : ∀ x ∈ b, Tame x) (i : Nat) : Tame (b.getD i 0) := by
  by_cases hi : i < b.length
  · exact hb _ (getD_mem_of_lt b 0 hi)
  · rw [List.getD_eq_default _ _ (Nat.le_of_not_lt hi)]
    exact h0

theorem tame_row0 [Zero R] [One R] [Add R] [Mul R] {x y z w : R}
    (hx : Tame x) (hy : Tame y) (hz : Tame z) (hw : Tame w) :
    1 * x + 0 * y + 0 * z + 0 * w = x := by
  rw [hx.2.2.1, hy.1, hz.1, hw.1, hx.2.2.2.2.1, hx.2.2.2.2.1, hx.2.2.2.2.1]

theorem tame_row1 [Zero R] [One R] [Add R] [Mul R] {x y z w : R}
    (hx : Tame x) (hy : Tame y) (hz : Tame z) (hw : Tame w) :
    0 * x + 1 * y + 0 * z + 0 * w = y := by
  rw [hx.1, hy.2.2.1, hz.1, hw.1, hy.2.2.2.2.2, hy.2.2.2.2.1, hy.2.2.2.2.1]

theorem tame_row2 [Zero R] [One R] [Add R] [Mul R] {x y z w : R} (h0 : Tame (0 : R))
    (hx : Tame x) (hy : Tame y) (hz : Tame z) (hw : Tame w) :
    0 * x + 0 * y + 1 * z + 0 * w = z := by
  rw [hx.1, hy.1, hz.2.2.1, hw.1, h0.2.2.2.2.1, hz.2.2.2.2.2, hz.2.2.2.2.1]

theorem tame_row3 [Zero R] [One R] [Add R] [Mul R] {x y z w : R} (h0 : Tame (0 : R))
    (hx : Tame x) (hy : Tame y) (hz : Tame z) (hw : Tame w) :
    0 * x + 0 * y + 0 * z + 1 * w = w := by
  rw [hx.1, hy.1, hz.1, hw.2.2.1, h0.2.2.2.2.1, h0.2.2.2.2.1, hw.2.2.2.2.2]

/-- The product of the identity with a matrix of tame numbers, as `dot_c` computes it, is
that matrix. -/
theorem productCells_identity [Zero R] [One R] [Add R] [Mul R] (b : List R)
    (hb : b.length = 16) (h0 : Tame (0 : R)) (htame : ∀ x ∈ b, Tame x) :
    productCells [1, 0, 0, 0, 0, 1, 0, 0, 0, 0, 1, 0, 0, 0, 0, 1] b = b := by
  have t := tame_getD h0 htame
  apply ext_sixteen (length_productCells _ _) hb
  intro i j hi hj
  rw [productCells_getElem _ _ i j hi hj,
    getElem?_eq_some_getD b (show 4 * i + j < b.length by omega)]
  interval_cases i <;> interval_cases j <;>
    first
    | exact congrArg some (tame_row0 (t _) (t _) (t _) (t _))
    | exact congrArg some (tame_row1 (t _) (t _) (t _) (t _))
    | exact congrArg some (tame_row2 h0 (t _) (t _) (t _) (t _))
    | exact congrArg some (tame_row3 h0 (t _) (t _) (t _) (t _))

/-- The bottom row of a product, as `dot_c` computes it, when both factors have bottom row
`(0, 0, 0, 1)` and the right factor holds tame numbers. -/
theorem bottomRow_productCells [Zero R] [One R] [Add R] [Mul R] (a b : List R)
    (ha : BottomRow a) (hb : BottomRow b) (h0 : Tame (0 : R)) (h1 : Tame (1 : R))
    (htame : ∀ x ∈ b, Tame x) : BottomRow (productCells a b) := by
  have t := tame_getD h0 htame
  obtain ⟨a12, a13, a14, a15⟩ := ha
  obtain ⟨b12, b13, b14, b15⟩ := hb
  have ea12 : a.getD 12 0 = 0 := by rw [List.getD_eq_getElem?_getD, a12]; rfl
  have ea13 : a.getD 13 0 = 0 := by rw [List.getD_eq_getElem?_getD, a13]; rfl
  have ea14 : a.getD 14 0 = 0 := by rw [List.getD_eq_getElem?_getD, a14]; rfl
  have ea15 : a.getD 15 0 = 1 := by rw [List.getD_eq_getElem?_getD, a15]; rfl
  have eb12 : b.getD 12 0 = 0 := by rw [List.getD_eq_getElem?_getD, b12]; rfl
  have eb13 : b.getD 13 0 = 0 := by rw [List.getD_eq_getElem?_getD, b13]; rfl
  have eb14 : b.getD 14 0 = 0 := by rw [List.getD_eq_getElem?_getD, b14]; rfl
  have eb15 : b.getD 15 0 = 1 := by rw [List.getD_eq_getElem?_getD, b15]; rfl
  refine ⟨?_, ?_, ?_, ?_⟩
  · show some (a.getD 12 0 * b.getD 0 0 + a.getD 13 0 * b.getD 4 0 + a.getD 14 0 * b.getD 8 0 +
      a.getD 15 0 * b.getD 12 0) = some 0
    rw [ea12, ea13, ea14, ea15, eb12, tame_row3 h0 (t _) (t _) (t _) h0]
  · show some (a.getD 12 0 * b.getD 1 0 + a.getD 13 0 * b.getD 5 0 + a.getD 14 0 * b.getD 9 0 +
      a.getD 15 0 * b.getD 13 0) = some 0
    rw [ea12, ea13, ea14, ea15, eb13, tame_row3 h0 (t _) (t _) (t _) h0]
  · show some (a.getD 12 0 * b.getD 2 0 + a.getD 13 0 * b.getD 6 0 + a.getD 14 0 * b.getD 10 0 +
      a.getD 15 0 * b.getD 14 0) = some 0
    rw [ea12, ea13, ea14, ea15, eb14, tame_row3 h0 (t _) (t _) (t _) h0]
  · show some (a.getD 12 0 * b.getD 3 0 + a.getD 13 0 * b.getD 7 0 + a.getD 14 0 * b.getD 11 0 +
      a.getD 15 0 * b.getD 15 0) = some 1
    rw [ea12, ea13, ea14, ea15, eb15, tame_row3 h0 (t _) (t _) (t _) h1]

end TameLemmas


section ExactLemmas

variable {R : Type}

/-- Two lists of finite numbers with the same exact values are equal. -/
theorem reads_inj {S : Type} (val : R → Option S)
    (hval : ∀ x y s, val x = some s → val y = some s → x = y) {l m : List R} {q : List S}
    (hl : Reads val l q) (hm : Reads val m q) : l = m := by
  unfold Reads at hl hm
  apply List.ext_getElem?
  intro n
  have h1 := congrArg (fun t => t[n]?) hl
  have h2 := congrArg (fun t => t[n]?) hm
  simp only [List.getElem?_map] at h1 h2
  cases hq : q[n]? with
  | none =>
    rw [hq] at h1 h2
    cases hln : l[n]? with
    | none =>
      cases hmn : m[n]? with
      | none => rfl
      | some y => rw [hmn] at h2; cases h2
    | some x => rw [hln] at h1; cases h1
  | some s =>
    rw [hq] at h1 h2
    cases hln : l[n]? with
    | none => rw [hln] at h1; cases h1
    | some x =>
      cases hmn : m[n]? with
      | none => rw [hmn] at h2; cases h2
      | some y =>
        rw [hln] at h1
        rw [hmn] at h2
        exact congrArg some (hval x y s (Option.some.inj h1) (Option.some.inj h2))

theorem reads_length {S : Type} (val : R → Option S) {l : List R} {q : List S}
    (hl : Reads val l q) : l.length = q.length := by
  have := congrArg List.length hl
  simpa using this

/-- The copy loop of `dot_c` on a 16-cell block `B` and a 16-cell scratch block `s`: it
succeeds and leaves in `B` exactly the cells of `s`. -/
theorem dot_c_copy_all [Zero R] {h : Heap R} {B : Ptr} {b : List R} (hB : h.block B = some b)
    (hb : b.length = 16) (s : List R) (hs : s.length = 16) :
    dot_c_copy B h.length 16 0 (h ++ [some s]) = .ok (h.set B (some s) ++ [some s]) := by
  rw [cells_eq b hb] at hB
  rw [cells_eq s hs]
  exact dot_c_copy_cells hB _ _ _ _ _ _ _ _ _ _ _ _ _ _ _ _

end ExactLemmas


section RunLemmas

variable {R : Type}

theorem run_build [Zero R] [One R] [Neg R] [Add R] [Mul R] (cos sin : R → R)
    (junk : Ptr → Nat → R) (theta d r alpha : R) (cs : List (Call R)) (h : Heap R) :
    run cos sin junk (.build theta d r alpha :: cs) h =
      run cos sin junk cs (h ++ [some
        [cos theta, (-sin theta) * cos alpha, sin theta * sin alpha, r * cos theta,
         sin theta, cos theta * cos alpha, (-cos theta) * sin alpha, r * sin theta,
         0, sin alpha, cos alpha, d,
         0, 0, 0, 1]]) := by
  rw [run, T_c_cells]
  rfl

theorem run_compose [Zero R] [One R] [Neg R] [Add R] [Mul R] (cos sin : R → R)
    (junk : Ptr → Nat → R) (A B : Ptr) (cs : List (Call R)) {h : Heap R} {a b : List R}
    (hA : h.block A = some a) (hB : h.block B = some b)
    (ha : a.length = 16) (hb : b.length = 16) :
    run cos sin junk (.compose A B :: cs) h =
      run cos sin junk cs (h.set B (some (productCells a b)) ++ [none]) := by
  rw [run, hA, hB, dot_c_eval_cells (junk h.length) hA hB ha hb]
  rfl

theorem run_compose_dead [Zero R] [One R] [Neg R] [Add R] [Mul R] (cos sin : R → R)
    (junk : Ptr → Nat → R) (A B : Ptr) (cs : List (Call R)) {h : Heap R}
    (hAB : h.block A = none ∨ h.block B = none) :
    run cos sin junk (.compose A B :: cs) h = .error .badPointer := by
  rw [run]
  rcases hAB with hA | hB
  · rw [hA]; rfl
  · rw [hB, Bool.and_comm]; rfl

/-- An invariant of client programs.  Let `P` be a property of 16-cell blocks that holds of
every `T_c` result and is preserved by the product that `dot_c` computes when the operands
satisfy `T`.  If along the run of a program every live block satisfies `T`, then after the
program every live block is a 16-cell block that satisfies `P`; the only fault a program
can raise is the use of a pointer that is not live. -/
theorem run_invariant_of [Zero R] [One R] [Neg R] [Add R] [Mul R] (cos sin : R → R)
    (junk : Ptr → Nat → R) (P T : List R → Prop)
    (hbuild : ∀ theta d r alpha : R, P
        [cos theta, (-sin theta) * cos alpha, sin theta * sin alpha, r * cos theta,
         sin theta, cos theta * cos alpha, (-cos theta) * sin alpha, r * sin theta,
         0, sin alpha, cos alpha, d,
         0, 0, 0, 1])
    (hstep : ∀ a b : List R, a.length = 16 → b.length = 16 → P a → P b → T a → T b →
      P (productCells a b)) :
    ∀ (cs : List (Call R)) (h : Heap R),
      (∀ p l, h.block p = some l → l.length = 16 ∧ P l) →
      (∀ n hn p l, run cos sin junk (cs.take n) h = .ok hn → hn.block p = some l → T l) →
      run cos sin junk cs h = .error .badPointer ∨
      ∃ h', run cos sin junk cs h = .ok h' ∧
        ∀ p l, h'.block p = some l → l.length = 16 ∧ P l := by
  intro cs
  induction cs with
  | nil => intro h hinv _; exact Or.inr ⟨h, rfl, hinv⟩
  | cons c cs ih =>
    intro h hinv hT
    cases c with
    | build theta d r alpha =>
      rw [run_build]
      apply ih
      · intro p l hp
        rw [Heap.block_append_some] at hp
        by_cases hpe : p = h.length
        · rw [if_pos hpe] at hp
          cases hp
          exact ⟨rfl, hbuild theta d r alpha⟩
        · rw [if_neg hpe] at hp
          exact hinv p l hp
      · intro n hn p l hrun hp
        refine hT (n + 1) hn p l ?_ hp
        rw [List.take_succ_cons, run_build]
        exact hrun
    | compose A B =>
      cases hA : h.block A with
      | none => exact Or.inl (run_compose_dead cos sin junk A B cs (Or.inl hA))
      | some a =>
        cases hB : h.block B with
        | none => exact Or.inl (run_compose_dead cos sin junk A B cs (Or.inr hB))
        | some b =>
          obtain ⟨ha, hPa⟩ := hinv A a hA
          obtain ⟨hb, hPb⟩ := hinv B b hB
          have hTa : T a := hT 0 h A a rfl hA
          have hTb : T b := hT 0 h B b rfl hB
          rw [run_compose cos sin junk A B cs hA hB ha hb]
          apply ih
          · intro p l hp
            rw [Heap.block_set_append_none h (Heap.block_lt hB)] at hp
            by_cases hpe : p = B
            · rw [if_pos hpe] at hp
              cases hp
              exact ⟨rfl, hstep a b ha hb hPa hPb hTa hTb⟩
            · rw [if_neg hpe] at hp
              exact hinv p l hp
          · intro n hn p l hrun hp
            refine hT (n + 1) hn p l ?_ hp
            rw [List.take_succ_cons, run_compose cos sin junk A B _ hA hB ha hb]
            exact hrun

end RunLemmas

section RunAlong

variable {R : Type}

/-- An invariant of one client program.  Let `P` be a property of 16-cell blocks that holds
of the result of every `T_c` call of the program and is preserved by every product that a
`dot_c` call of the program computes.  Then after the program every live block is a 16-cell
block that satisfies `P`; the only fault a program can raise is the use of a pointer that is
not live. -/
theorem run_invariant_along [Zero R] [One R] [Neg R] [Add R] [Mul R] (cos sin : R → R)
    (junk : Ptr → Nat → R) (P : List R → Prop) :
    ∀ (cs : List (Call R)) (h : Heap R),
      (∀ p l, h.block p = some l → l.length = 16 ∧ P l) →
      (∀ (n : Nat) (theta d r alpha : R), cs[n]? = some (Call.build theta d r alpha) → P
        [cos theta, (-sin theta) * cos alpha, sin theta * sin alpha, r * cos theta,
         sin theta, cos theta * cos alpha, (-cos theta) * sin alpha, r * sin theta,
         0, sin alpha, cos alpha, d,
         0, 0, 0, 1]) →
      (∀ (n : Nat) (hn : Heap R) (A B : Ptr) (a b : List R), cs[n]? = some (Call.compose A B) →
        run cos sin junk (cs.take n) h = .ok hn → hn.block A = some a → hn.block B = some b →
        P a → P b → P (productCells a b)) →
      run cos sin junk cs h = .error .badPointer ∨
      ∃ h', run cos sin junk cs h = .ok h' ∧
        ∀ p l, h'.block p = some l → l.length = 16 ∧ P l := by
  intro cs
  induction cs with
  | nil => intro h hinv _ _; exact Or.inr ⟨h, rfl, hinv⟩
  | cons c cs ih =>
    intro h hinv hbuild hstep
    cases c with
    | build theta d r alpha =>
      rw [run_build]
      apply ih
      · intro p l hp
        rw [Heap.block_append_some] at hp
        by_cases hpe : p = h.length
        · rw [if_pos hpe] at hp
          cases hp
          exact ⟨rfl, hbuild 0 theta d r alpha List.getElem?_cons_zero⟩
        · rw [if_neg hpe] at hp
          exact hinv p l hp
      · intro n t d' r' al hn
        exact hbuild (n + 1) t d' r' al (List.getElem?_cons_succ.trans hn)
      · intro n hn A B a b hc hrun hA hB hPa hPb
        refine hstep (n + 1) hn A B a b (List.getElem?_cons_succ.trans hc) ?_ hA hB hPa hPb
        rw [List.take_succ_cons, run_build]
        exact hrun
    | compose A B =>
      cases hA : h.block A with
      | none => exact Or.inl (run_compose_dead cos sin junk A B cs (Or.inl hA))
      | some a =>
        cases hB : h.block B with
        | none => exact Or.inl (run_compose_dead cos sin junk A B cs (Or.inr hB))
        | some b =>
          obtain ⟨ha, hPa⟩ := hinv A a hA
          obtain ⟨hb, hPb⟩ := hinv B b hB
          rw [run_compose cos sin junk A B cs hA hB ha hb]
          apply ih
          · intro p l hp
            rw [Heap.block_set_append_none h (Heap.block_lt hB)] at hp
            by_cases hpe : p = B
            · rw [if_pos hpe] at hp
              cases hp
              exact ⟨rfl, hstep 0 h A B a b List.getElem?_cons_zero rfl hA hB hPa hPb⟩
            · rw [if_neg hpe] at hp
              exact hinv p l hp
          · intro n t d' r' al hn
            exact hbuild (n + 1) t d' r' al (List.getElem?_cons_succ.trans hn)
          · intro n hn A' B' a' b' hc hrun hA' hB' hPa' hPb'
            refine hstep (n + 1) hn A' B' a' b' (List.getElem?_cons_succ.trans hc) ?_ hA' hB' hPa' hPb'
            rw [List.take_succ_cons, run_compose cos sin junk A B _ hA hB ha hb]
            exact hrun

end RunAlong

section PipelineLemmas

variable {R : Type}

/-- The two most recently allocated blocks. -/
theorem Heap.block_fresh_pair (h : Heap R) (la lb : List R) :
    Heap.block (h ++ [some la] ++ [some lb]) h.length = some la ∧
      Heap.block (h ++ [some la] ++ [some lb]) (h ++ [some la]).length = some lb ∧
      h.length ≠ (h ++ [some la]).length := by
  have hne : h.length ≠ (h ++ [some la]).length := by
    rw [List.length_append, List.length_singleton]
    exact Nat.ne_of_lt (Nat.lt_succ_self _)
  refine ⟨?_, ?_, hne⟩
  · rw [Heap.block_append_some, if_neg hne, Heap.block_append_some, if_pos rfl]
  · rw [Heap.block_append_some, if_pos rfl]

/-- Two `T_c` calls followed by `dot_c` on their results, for any number type: all three
calls succeed, the first block keeps its cells and the second holds the product. -/
theorem T_c_T_c_dot_c [Zero R] [One R] [Neg R] [Add R] [Mul R] (cos sin : R → R)
    (junk : Nat → R) (h : Heap R) (t1 d1 r1 a1 t2 d2 r2 a2 : R) :
    ∃ A h1 B h2 h3, T_c cos sin h t1 d1 r1 a1 = .ok (A, h1) ∧
      T_c cos sin h1 t2 d2 r2 a2 = .ok (B, h2) ∧ A ≠ B ∧
      dot_c junk h2 A B = .ok h3 ∧
      h3.block A = some
        [cos t1, (-sin t1) * cos a1, sin t1 * sin a1, r1 * cos t1,
         sin t1, cos t1 * cos a1, (-cos t1) * sin a1, r1 * sin t1,
         0, sin a1, cos a1, d1,
         0, 0, 0, 1] ∧
      h3.block B = some (productCells
        [cos t1, (-sin t1) * cos a1, sin t1 * sin a1, r1 * cos t1,
         sin t1, cos t1 * cos a1, (-cos t1) * sin a1, r1 * sin t1,
         0, sin a1, cos a1, d1,
         0, 0, 0, 1]
        [cos t2, (-sin t2) * cos a2, sin t2 * sin a2, r2 * cos t2,
         sin t2, cos t2 * cos a2, (-cos t2) * sin a2, r2 * sin t2,
         0, sin a2, cos a2, d2,
         0, 0, 0, 1]) ∧
      ∃ k3, dot_c junk h2 B A = .ok k3 ∧
        k3.block A = some (productCells
          [cos t2, (-sin t2) * cos a2, sin t2 * sin a2, r2 * cos t2,
           sin t2, cos t2 * cos a2, (-cos t2) * sin a2, r2 * sin t2,
           0, sin a2, cos a2, d2,
           0, 0, 0, 1]
          [cos t1, (-sin t1) * cos a1, sin t1 * sin a1, r1 * cos t1,
           sin t1, cos t1 * cos a1, (-cos t1) * sin a1, r1 * sin t1,
           0, sin a1, cos a1, d1,
           0, 0, 0, 1]) := by
  obtain ⟨hA, hB, hne⟩ := Heap.block_fresh_pair h
    [cos t1, (-sin t1) * cos a1, sin t1 * sin a1, r1 * cos t1,
     sin t1, cos t1 * cos a1, (-cos t1) * sin a1, r1 * sin t1,
     0, sin a1, cos a1, d1,
     0, 0, 0, 1]
    [cos t2, (-sin t2) * cos a2, sin t2 * sin a2, r2 * cos t2,
     sin t2, cos t2 * cos a2, (-cos t2) * sin a2, r2 * sin t2,
     0, sin a2, cos a2, d2,
     0, 0, 0, 1]
  obtain ⟨h3, hrun, _, hblk, hframe⟩ := dot_c_block_cells junk hA hB rfl rfl
  obtain ⟨k3, krun, _, kblk, _⟩ := dot_c_block_cells junk hB hA rfl rfl
  exact ⟨_, _, _, _, h3, T_c_cells cos sin h t1 d1 r1 a1, T_c_cells cos sin _ t2 d2 r2 a2,
    hne, hrun, (hframe _ hne).trans hA, hblk, k3, krun, kblk⟩

/-- The cells of a fresh `T_c` result. -/
theorem T_c_block [Zero R] [One R] [Neg R] [Mul R] (cos sin : R → R) (h : Heap R)
    (theta d r alpha : R) :
    ∃ p h', T_c cos sin h theta d r alpha = .ok (p, h') ∧
      h'.block p = some
        [cos theta, (-sin theta) * cos alpha, sin theta * sin alpha, r * cos theta,
         sin theta, cos theta * cos alpha, (-cos theta) * sin alpha, r * sin theta,
         0, sin alpha, cos alpha, d,
         0, 0, 0, 1] :=
  ⟨h.length, _, T_c_cells cos sin h theta d r alpha, Heap.block_append_length _ _ _ rfl⟩

end PipelineLemmas

section DoubleLemmas

/-- Multiplication of doubles is commutative, infinities and NaN included. -/
theorem Double.mul_commutes (x y : Double) : x * y = y * x := by
  show Double.mul x y = Double.mul y x
  cases x <;> cases y <;> simp [Double.mul, mul_comm, Bool.xor_comm]

/-- Addition of doubles is commutative, infinities and NaN included. -/
theorem Double.add_commutes (x y : Double) : x + y = y + x := by
  show Double.add x y = Double.add y x
  cases x with
  | finite a => cases y <;> simp [Double.add, add_comm]
  | inf a =>
    cases y with
    | finite b => simp [Double.add]
    | inf b =>
      by_cases hab : a = b
      · subst hab
        rfl
      · have hba : ¬ b = a := fun e => hab e.symm
        simp [Double.add, hab, hba]
    | nan => simp [Double.add]
  | nan => cases y <;> simp [Double.add]

/-- Distinct finite doubles have distinct exact values. -/
theorem Double.value_inj (x y : Double) (s : ℚ) (hx : x.value = some s)
    (hy : y.value = some s) : x = y := by
  cases x <;> cases y <;> simp_all [Double.value]

end DoubleLemmas

section Perturbation

theorem abs_mul_sub_mul_le {q q' e f ε : ℝ} (hq : |q| ≤ 1) (hq' : |q'| ≤ 1) (he : |e| ≤ ε)
    (hf : |f| ≤ ε) : |(q + e) * (q' + f) - q * q'| ≤ 2 * ε + ε ^ 2 := by
  have hε : 0 ≤ ε := le_trans (abs_nonneg e) he
  have e1 : (q + e) * (q' + f) - q * q' = q * f + e * q' + e * f := by ring
  rw [e1]
  have b1 : |q * f| ≤ ε := by
    rw [abs_mul]
    calc |q| * |f| ≤ 1 * ε := mul_le_mul hq hf (abs_nonneg f) zero_le_one
      _ = ε := one_mul ε
  have b2 : |e * q'| ≤ ε := by
    rw [abs_mul]
    calc |e| * |q'| ≤ ε * 1 := mul_le_mul he hq' (abs_nonneg q') hε
      _ = ε := mul_one ε
  have b3 : |e * f| ≤ ε ^ 2 := by
    rw [abs_mul, pow_two]
    exact mul_le_mul he hf (abs_nonneg f) hε
  calc |q * f + e * q' + e * f| ≤ |q * f + e * q'| + |e * f| := abs_add _ _
    _ ≤ |q * f| + |e * q'| + |e * f| := by linarith [abs_add (q * f) (e * q')]
    _ ≤ 2 * ε + ε ^ 2 := by linarith

/-- An entry of a matrix with orthonormal rows is at most 1 in absolute value. -/
theorem abs_entry_le_one {Q : Matrix (Fin 3) (Fin 3) ℝ} (hQ : RowsOrthonormal Q)
    (i k : Fin 3) : |Q i k| ≤ 1 := by
  have h1 := hQ.1 i
  rw [Fin.sum_univ_three] at h1
  have hsq : Q i k * Q i k ≤ 1 := by
    fin_cases k
    · show Q i 0 * Q i 0 ≤ 1
      nlinarith [mul_self_nonneg (Q i 1), mul_self_nonneg (Q i 2)]
    · show Q i 1 * Q i 1 ≤ 1
      nlinarith [mul_self_nonneg (Q i 0), mul_self_nonneg (Q i 2)]
    · show Q i 2 * Q i 2 ≤ 1
      nlinarith [mul_self_nonneg (Q i 0), mul_self_nonneg (Q i 1)]
  exact abs_le_one_iff_mul_self_le_one.2 hsq

/-- A matrix whose entries are within `ε` of those of a matrix with orthonormal rows has
rows that are orthonormal up to `6 * ε + 3 * ε ^ 2`. -/
theorem rows_near_orthonormal {Q M : Matrix (Fin 3) (Fin 3) ℝ} {ε : ℝ}
    (hQ : RowsOrthonormal Q) (hM : ∀ i k, |M i k - Q i k| ≤ ε) (i j : Fin 3) :
    |∑ k, M i k * M j k - (if i = j then 1 else 0)| ≤ 6 * ε + 3 * ε ^ 2 := by
  have hδ : (∑ k, Q i k * Q j k) = if i = j then 1 else 0 := by
    by_cases hij : i = j
    · subst hij
      rw [if_pos rfl]
      exact hQ.1 i
    · rw [if_neg hij]
      exact hQ.2 i j hij
  rw [← hδ, Fin.sum_univ_three, Fin.sum_univ_three]
  have t : ∀ k, |M i k * M j k - Q i k * Q j k| ≤ 2 * ε + ε ^ 2 := by
    intro k
    have := abs_mul_sub_mul_le (abs_entry_le_one hQ i k) (abs_entry_le_one hQ j k)
      (hM i k) (hM j k)
    rwa [add_sub_cancel, add_sub_cancel] at this
  have t0 := t 0
  have t1 := t 1
  have t2 := t 2
  rw [abs_le] at t0 t1 t2 ⊢
  constructor <;> linarith [t0.1, t0.2, t1.1, t1.2, t2.1, t2.2]

theorem rowsOrthonormal_transpose {Q : Matrix (Fin 3) (Fin 3) ℝ} (hQ : ColsOrthonormal Q) :
    RowsOrthonormal Q.transpose := hQ

/-- A matrix whose entries are within `ε` of those of a matrix with orthonormal columns has
columns that are orthonormal up to `6 * ε + 3 * ε ^ 2`. -/
theorem cols_near_orthonormal {Q M : Matrix (Fin 3) (Fin 3) ℝ} {ε : ℝ}
    (hQ : ColsOrthonormal Q) (hM : ∀ i k, |M i k - Q i k| ≤ ε) (i j : Fin 3) :
    |∑ k, M k i * M k j - (if i = j then 1 else 0)| ≤ 6 * ε + 3 * ε ^ 2 :=
  rows_near_orthonormal (Q := Q.transpose) (M := M.transpose) (rowsOrthonormal_transpose hQ)
    (fun a b => hM b a) i j

/-- The error of a rounded product of two inexact factors of absolute value at most 1. -/
theorem abs_fmul_sub_le {fmul : ℝ → ℝ → ℝ} {u : ℝ}
    (hmul : ∀ x y : ℝ, |x| ≤ 1 → |y| ≤ 1 → |fmul x y - x * y| ≤ u)
    {a b a' b' : ℝ} (ha : |a| ≤ 1) (hb : |b| ≤ 1) (hb' : |b'| ≤ 1)
    (hea : |a - a'| ≤ u) (heb : |b - b'| ≤ u) : |fmul a b - a' * b'| ≤ 3 * u := by
  have h1 := hmul a b ha hb
  have e1 : a * b - a' * b' = a * (b - b') + (a - a') * b' := by ring
  have hu : 0 ≤ u := le_trans (abs_nonneg _) hea
  have b1 : |a * (b - b')| ≤ u := by
    rw [abs_mul]
    calc |a| * |b - b'| ≤ 1 * u := mul_le_mul ha heb (abs_nonneg _) zero_le_one
      _ = u := one_mul u
  have b2 : |(a - a') * b'| ≤ u := by
    rw [abs_mul]
    calc |a - a'| * |b'| ≤ u * 1 := mul_le_mul hea hb' (abs_nonneg _) hu
      _ = u := mul_one u
  have h2 : |a * b - a' * b'| ≤ 2 * u := by
    rw [e1]
    linarith [abs_add (a * (b - b')) ((a - a') * b')]
  have e2 : fmul a b - a' * b' = (fmul a b - a * b) + (a * b - a' * b') := by ring
  rw [e2]
  linarith [abs_add (fmul a b - a * b) (a * b - a' * b')]

end Perturbation

section RigidLemmas

variable {R : Type}

/-- The bottom row of a product of two matrices with bottom row `(0, 0, 0, 1)`. -/
theorem bottomRow_mul [CommRing R] (a b : List R) (ha : BottomRow a) (hb : BottomRow b) :
    BottomRow (ofMatrix (toMatrix a * toMatrix b)) := by
  obtain ⟨a12, a13, a14, a15⟩ := ha
  obtain ⟨b12, b13, b14, b15⟩ := hb
  rw [ofMatrix_mul]
  simp [BottomRow, List.getD, a12, a13, a14, a15, b12, b13, b14, b15]


theorem rowsOrthonormal_iff [CommRing R] (M : Matrix (Fin 3) (Fin 3) R) :
    RowsOrthonormal M ↔ M * M.transpose = 1 := by
  constructor
  · rintro ⟨h1, h2⟩
    ext i j
    rw [Matrix.mul_apply]
    by_cases hij : i = j
    · subst hij
      simpa [Matrix.transpose_apply] using h1 i
    · simpa [Matrix.transpose_apply, Matrix.one_apply_ne hij] using h2 i j hij
  · intro hM
    constructor
    · intro i
      have := congrFun (congrFun hM i) i
      rw [Matrix.mul_apply] at this
      simpa [Matrix.transpose_apply] using this
    · intro i j hij
      have := congrFun (congrFun hM i) j
      rw [Matrix.mul_apply] at this
      simpa [Matrix.transpose_apply, Matrix.one_apply_ne hij] using this

theorem colsOrthonormal_iff [CommRing R] (M : Matrix (Fin 3) (Fin 3) R) :
    ColsOrthonormal M ↔ M.transpose * M = 1 := by
  constructor
  · rintro ⟨h1, h2⟩
    ext i j
    rw [Matrix.mul_apply]
    by_cases hij : i = j
    · subst hij
      simpa [Matrix.transpose_apply] using h1 i
    · simpa [Matrix.transpose_apply, Matrix.one_apply_ne hij] using h2 i j hij
  · intro hM
    constructor
    · intro i
      have := congrFun (congrFun hM i) i
      rw [Matrix.mul_apply] at this
      simpa [Matrix.transpose_apply] using this
    · intro i j hij
      have := congrFun (congrFun hM i) j
      rw [Matrix.mul_apply] at this
      simpa [Matrix.transpose_apply, Matrix.one_apply_ne hij] using this

/-- The rotation block of a product is the product of the rotation blocks, when the right
factor has bottom row `(0, 0, 0, 1)`. -/
theorem rotBlock_mul [CommRing R] (a b : List R) (hb : BottomRow b) :
    rotBlock (ofMatrix (toMatrix a * toMatrix b)) = rotBlock a * rotBlock b := by
  obtain ⟨b12, b13, b14, _⟩ := hb
  rw [ofMatrix_mul]
  ext i j
  fin_cases i <;> fin_cases j <;>
    simp [rotBlock, Matrix.mul_apply, Fin.sum_univ_three, List.getD, b12, b13, b14]

/-- A product of matrices with orthonormal rows has orthonormal rows and columns. -/
theorem orthonormal_mul [CommRing R] (a b : List R) (hb : BottomRow b)
    (hoa : RowsOrthonormal (rotBlock a)) (hob : RowsOrthonormal (rotBlock b)) :
    RowsOrthonormal (rotBlock (ofMatrix (toMatrix a * toMatrix b))) ∧
      ColsOrthonormal (rotBlock (ofMatrix (toMatrix a * toMatrix b))) := by
  rw [rowsOrthonormal_iff] at hoa hob
  have hrow : rotBlock a * rotBlock b * (rotBlock a * rotBlock b).transpose = 1 := by
    rw [Matrix.transpose_mul, Matrix.mul_assoc, ← Matrix.mul_assoc (rotBlock b), hob,
      Matrix.one_mul, hoa]
  rw [rowsOrthonormal_iff, colsOrthonormal_iff, rotBlock_mul a b hb]
  exact ⟨hrow, Matrix.mul_eq_one_comm.1 hrow⟩

/-- The rotation block that `T_c` writes has orthonormal rows and columns. -/
theorem T_c_cells_orthonormal (theta d r alpha : ℝ) :
    RowsOrthonormal (rotBlock
        [Real.cos theta, (-Real.sin theta) * Real.cos alpha, Real.sin theta * Real.sin alpha,
         r * Real.cos theta,
         Real.sin theta, Real.cos theta * Real.cos alpha, (-Real.cos theta) * Real.sin alpha,
         r * Real.sin theta,
         0, Real.sin alpha, Real.cos alpha, d,
         0, 0, 0, 1]) ∧
    ColsOrthonormal (rotBlock
        [Real.cos theta, (-Real.sin theta) * Real.cos alpha, Real.sin theta * Real.sin alpha,
         r * Real.cos theta,
         Real.sin theta, Real.cos theta * Real.cos alpha, (-Real.cos theta) * Real.sin alpha,
         r * Real.sin theta,
         0, Real.sin alpha, Real.cos alpha, d,
         0, 0, 0, 1]) := by
  have ht := Real.cos_sq_add_sin_sq theta
  have ha := Real.cos_sq_add_sin_sq alpha
  refine ⟨⟨?_, ?_⟩, ⟨?_, ?_⟩⟩
  · intro i
    fin_cases i <;> simp [rotBlock, Fin.sum_univ_three] <;>
      first
      | linear_combination ht + Real.sin theta ^ 2 * ha
      | linear_combination ht + Real.cos theta ^ 2 * ha
      | linear_combination ha
  · intro i j hij
    fin_cases i <;> fin_cases j <;> simp [rotBlock, Fin.sum_univ_three] at hij ⊢ <;>
      first
      | ring1
      | linear_combination (-(Real.cos theta * Real.sin theta)) * ha
  · intro j
    fin_cases j <;> simp [rotBlock, Fin.sum_univ_three] <;>
      first
      | linear_combination ht
      | linear_combination Real.cos alpha ^ 2 * ht + ha
      | linear_combination Real.sin alpha ^ 2 * ht + ha
  · intro i j hij
    fin_cases i <;> fin_cases j <;> simp [rotBlock, Fin.sum_univ_three] at hij ⊢ <;>
      first
      | ring1
      | linear_combination (-(Real.cos alpha * Real.sin alpha)) * ht


end RigidLemmas

section RoundedBuilder

/-- The cells that `T_c` computes with inexact `cos`, `sin` and products are within `3 * u`
of the cells of the exact DH matrix (upper-left 3x3 block). -/
theorem T_c_cells_near (u : ℝ) (fmul : ℝ → ℝ → ℝ) (cosF sinF : ℝ → ℝ)
    (hmul : ∀ x y : ℝ, |x| ≤ 1 → |y| ≤ 1 → |fmul x y - x * y| ≤ u)
    (hcos : ∀ x, |cosF x - Real.cos x| ≤ u ∧ |cosF x| ≤ 1)
    (hsin : ∀ x, |sinF x - Real.sin x| ≤ u ∧ |sinF x| ≤ 1)
    (theta d r alpha : ℝ) :
    ∀ i k : Fin 3,
      |rotBlock
          [cosF theta, fmul (-sinF theta) (cosF alpha), fmul (sinF theta) (sinF alpha),
            fmul r (cosF theta),
            sinF theta, fmul (cosF theta) (cosF alpha), fmul (-cosF theta) (sinF alpha),
            fmul r (sinF theta),
            0, sinF alpha, cosF alpha, d,
            0, 0, 0, 1] i k -
        rotBlock
          [Real.cos theta, (-Real.sin theta) * Real.cos alpha, Real.sin theta * Real.sin alpha,
            r * Real.cos theta,
            Real.sin theta, Real.cos theta * Real.cos alpha,
            (-Real.cos theta) * Real.sin alpha, r * Real.sin theta,
            0, Real.sin alpha, Real.cos alpha, d,
            0, 0, 0, 1] i k| ≤ 3 * u := by
  have hu : 0 ≤ u := le_trans (abs_nonneg _) (hcos 0).1
  have hct := hcos theta
  have hst := hsin theta
  have hca := hcos alpha
  have hsa := hsin alpha
  have hnst : |(-sinF theta) - (-Real.sin theta)| ≤ u := by
    rw [neg_sub_neg, abs_sub_comm]
    exact hst.1
  have hnct : |(-cosF theta) - (-Real.cos theta)| ≤ u := by
    rw [neg_sub_neg, abs_sub_comm]
    exact hct.1
  have hnst1 : |-sinF theta| ≤ 1 := by rw [abs_neg]; exact hst.2
  have hnct1 : |-cosF theta| ≤ 1 := by rw [abs_neg]; exact hct.2
  intro i k
  fin_cases i <;> fin_cases k
  · show |cosF theta - Real.cos theta| ≤ 3 * u
    linarith [hct.1]
  · show |fmul (-sinF theta) (cosF alpha) - (-Real.sin theta) * Real.cos alpha| ≤ 3 * u
    exact abs_fmul_sub_le hmul hnst1 hca.2 (Real.abs_cos_le_one alpha) hnst hca.1
  · show |fmul (sinF theta) (sinF alpha) - Real.sin theta * Real.sin alpha| ≤ 3 * u
    exact abs_fmul_sub_le hmul hst.2 hsa.2 (Real.abs_sin_le_one alpha) hst.1 hsa.1
  · show |sinF theta - Real.sin theta| ≤ 3 * u
    linarith [hst.1]
  · show |fmul (cosF theta) (cosF alpha) - Real.cos theta * Real.cos alpha| ≤ 3 * u
    exact abs_fmul_sub_le hmul hct.2 hca.2 (Real.abs_cos_le_one alpha) hct.1 hca.1
  · show |fmul (-cosF theta) (sinF alpha) - (-Real.cos theta) * Real.sin alpha| ≤ 3 * u
    exact abs_fmul_sub_le hmul hnct1 hsa.2 (Real.abs_sin_le_one alpha) hnct hsa.1
  · show |(0 : ℝ) - 0| ≤ 3 * u
    rw [sub_zero, abs_zero]
    linarith
  · show |sinF alpha - Real.sin alpha| ≤ 3 * u
    linarith [hsa.1]
  · show |cosF alpha - Real.cos alpha| ≤ 3 * u
    linarith [hca.1]

end RoundedBuilder

section DetLemmas

variable {R : Type}

theorem toMatrix_cells [Zero R] (x0 x1 x2 x3 x4 x5 x6 x7 x8 x9 x10 x11 x12 x13 x14 x15 : R) :
    toMatrix [x0, x1, x2, x3, x4, x5, x6, x7, x8, x9, x10, x11, x12, x13, x14, x15] =
      Matrix.of ![![x0, x1, x2, x3], ![x4, x5, x6, x7], ![x8, x9, x10, x11],
        ![x12, x13, x14, x15]] := by
  ext i j
  fin_cases i <;> fin_cases j <;> rfl

theorem rotBlock_cells [Zero R] (x0 x1 x2 x3 x4 x5 x6 x7 x8 x9 x10 x11 x12 x13 x14 x15 : R) :
    rotBlock [x0, x1, x2, x3, x4, x5, x6, x7, x8, x9, x10, x11, x12, x13, x14, x15] =
      Matrix.of ![![x0, x1, x2], ![x4, x5, x6], ![x8, x9, x10]] := by
  ext i j
  fin_cases i <;> fin_cases j <;> rfl

/-- The determinant of a stored matrix with bottom row `(0, 0, 0, 1)` is that of its
upper-left 3x3 block. -/
theorem det_toMatrix_bottom [CommRing R] (x0 x1 x2 x3 x4 x5 x6 x7 x8 x9 x10 x11 : R) :
    (toMatrix [x0, x1, x2, x3, x4, x5, x6, x7, x8, x9, x10, x11, 0, 0, 0, 1]).det =
      (rotBlock [x0, x1, x2, x3, x4, x5, x6, x7, x8, x9, x10, x11, 0, 0, 0, 1]).det := by
  have e1 : Fin.succAbove (2 : Fin 4) (2 : Fin 3) = 3 := by decide
  have e2 : Fin.succAbove (1 : Fin 4) (2 : Fin 3) = 3 := by decide
  have e3 : Fin.castSucc (2 : Fin 3) = (2 : Fin 4) := by decide
  rw [toMatrix_cells, rotBlock_cells, Matrix.det_fin_three]
  simp [Matrix.det_succ_row_zero, Fin.sum_univ_succ, e1, e2, e3]
  ring

/-- The error of a product of three inexact factors. -/
theorem abs_mul_mul_sub_le {x y z x' y' z' ε : ℝ} (hx : |x'| ≤ 1) (hy : |y'| ≤ 1)
    (hz : |z'| ≤ 1) (ex : |x - x'| ≤ ε) (ey : |y - y'| ≤ ε) (ez : |z - z'| ≤ ε) :
    |x * y * z - x' * y' * z'| ≤ 3 * ε + 3 * ε ^ 2 + ε ^ 3 := by
  have hε : 0 ≤ ε := le_trans (abs_nonneg _) ex
  have hxy : |x * y - x' * y'| ≤ 2 * ε + ε ^ 2 := by
    have := abs_mul_sub_mul_le hx hy ex ey
    rwa [add_sub_cancel, add_sub_cancel] at this
  have hzb : |z| ≤ 1 + ε := by
    have e : z = z' + (z - z') := by ring
    rw [e]
    linarith [abs_add z' (z - z')]
  have hxy' : |x' * y'| ≤ 1 := by
    rw [abs_mul]
    calc |x'| * |y'| ≤ 1 * 1 := mul_le_mul hx hy (abs_nonneg _) zero_le_one
      _ = 1 := one_mul 1
  have e1 : x * y * z - x' * y' * z' = (x * y - x' * y') * z + x' * y' * (z - z') := by ring
  have b1 : |(x * y - x' * y') * z| ≤ (2 * ε + ε ^ 2) * (1 + ε) := by
    rw [abs_mul]
    exact mul_le_mul hxy hzb (abs_nonneg _) (by positivity)
  have b2 : |x' * y' * (z - z')| ≤ ε := by
    rw [abs_mul]
    calc |x' * y'| * |z - z'| ≤ 1 * ε := mul_le_mul hxy' ez (abs_nonneg _) zero_le_one
      _ = ε := one_mul ε
  rw [e1]
  have e2 : 3 * ε + 3 * ε ^ 2 + ε ^ 3 = (2 * ε + ε ^ 2) * (1 + ε) + ε := by ring
  rw [e2]
  linarith [abs_add ((x * y - x' * y') * z) (x' * y' * (z - z'))]

/-- The determinant of a 3x3 matrix whose entries are within `ε` of those of a matrix `Q`
with entries of absolute value at most 1. -/
theorem det_near {Q M : Matrix (Fin 3) (Fin 3) ℝ} {ε : ℝ} (hQ : ∀ i k, |Q i k| ≤ 1)
    (hM : ∀ i k, |M i k - Q i k| ≤ ε) :
    |M.det - Q.det| ≤ 18 * ε + 18 * ε ^ 2 + 6 * ε ^ 3 := by
  rw [Matrix.det_fin_three, Matrix.det_fin_three]
  have t1 := abs_mul_mul_sub_le (hQ 0 0) (hQ 1 1) (hQ 2 2) (hM 0 0) (hM 1 1) (hM 2 2)
  have t2 := abs_mul_mul_sub_le (hQ 0 0) (hQ 1 2) (hQ 2 1) (hM 0 0) (hM 1 2) (hM 2 1)
  have t3 := abs_mul_mul_sub_le (hQ 0 1) (hQ 1 0) (hQ 2 2) (hM 0 1) (hM 1 0) (hM 2 2)
  have t4 := abs_mul_mul_sub_le (hQ 0 1) (hQ 1 2) (hQ 2 0) (hM 0 1) (hM 1 2) (hM 2 0)
  have t5 := abs_mul_mul_sub_le (hQ 0 2) (hQ 1 0) (hQ 2 1) (hM 0 2) (hM 1 0) (hM 2 1)
  have t6 := abs_mul_mul_sub_le (hQ 0 2) (hQ 1 1) (hQ 2 0) (hM 0 2) (hM 1 1) (hM 2 0)
  rw [abs_le] at t1 t2 t3 t4 t5 t6 ⊢
  constructor <;> linarith [t1.1, t1.2, t2.1, t2.2, t3.1, t3.2, t4.1, t4.2, t5.1, t5.2,
    t6.1, t6.2]

/-- The rotation block of the exact DH matrix has determinant 1. -/
theorem T_c_cells_det (theta d r alpha : ℝ) :
    (rotBlock
        [Real.cos theta, (-Real.sin theta) * Real.cos alpha, Real.sin theta * Real.sin alpha,
         r * Real.cos theta,
         Real.sin theta, Real.cos theta * Real.cos alpha, (-Real.cos theta) * Real.sin alpha,
         r * Real.sin theta,
         0, Real.sin alpha, Real.cos alpha, d,
         0, 0, 0, 1]).det = 1 := by
  have ht := Real.cos_sq_add_sin_sq theta
  have ha := Real.cos_sq_add_sin_sq alpha
  rw [rotBlock_cells, Matrix.det_fin_three]
  simp
  linear_combination (Real.cos alpha ^ 2 + Real.sin alpha ^ 2) * ht + ha

end DetLemmas

section RigidRead

variable {R : Type}

/-- A 3x3 matrix with orthonormal rows has orthonormal columns. -/
theorem colsOrthonormal_of_rows {S : Type} [CommRing S] {M : Matrix (Fin 3) (Fin 3) S}
    (hM : RowsOrthonormal M) : ColsOrthonormal M := by
  rw [rowsOrthonormal_iff] at hM
  rw [colsOrthonormal_iff]
  exact Matrix.mul_eq_one_comm.1 hM

/-- The exact values of a list of numbers are determined by the list. -/
theorem reads_unique {S : Type} {val : R → Option S} {l : List R} {q q' : List S}
    (hq : Reads val l q) (hq' : Reads val l q') : q = q' := by
  have e : q.map some = q'.map some := hq.symm.trans hq'
  exact List.map_injective_iff.2 (Option.some_injective S) e

end RigidRead
section Builder

variable {R : Type}

/-- C1: for every `theta`, `d`, `r`, `alpha`, the call `T_c(theta, d, r, alpha)` succeeds and
returns a fresh block holding the 16 row-major cells with rows
`(cos theta, -sin theta * cos alpha, sin theta * sin alpha, r * cos theta)`,
`(sin theta, cos theta * cos alpha, -cos theta * sin alpha, r * sin theta)`,
`(0, sin alpha, cos alpha, d)` and `(0, 0, 0, 1)`; the never-assigned cells 8, 12, 13 and 14
are the zeros of the `calloc` block.  No other block changes. -/
theorem T_c_matrix [Zero R] [One R] [Neg R] [Mul R] (cos sin : R → R) (h : Heap R)
    (theta d r alpha : R) :
    ∃ p h', T_c cos sin h theta d r alpha = .ok (p, h') ∧
      h'.block p = some
        [cos theta, (-sin theta) * cos alpha, sin theta * sin alpha, r * cos theta,
         sin theta, cos theta * cos alpha, (-cos theta) * sin alpha, r * sin theta,
         0, sin alpha, cos alpha, d,
         0, 0, 0, 1] ∧
      h.block p = none ∧ ∀ q, q ≠ p → h'.block q = h.block q := by
  refine ⟨h.length, _, T_c_cells cos sin h theta d r alpha, ?_, ?_, ?_⟩
  · rw [Heap.block_append_some, if_pos rfl]
  · cases hc : h.block h.length with
    | none => rfl
    | some l => exact absurd (Heap.block_lt hc) (Nat.lt_irrefl _)
  · intro q hq
    rw [Heap.block_append_some, if_neg hq]

/-- C4: `T_c(0, 0, 0, 0)` returns the identity matrix: cells 0, 5, 10 and 15 are 1 and the
other twelve cells are 0. -/
theorem T_c_zero_identity (h : Heap ℝ) :
    ∃ p h', T_c Real.cos Real.sin h 0 0 0 0 = .ok (p, h') ∧
      h'.block p = some [1, 0, 0, 0, 0, 1, 0, 0, 0, 0, 1, 0, 0, 0, 0, 1] := by
  refine ⟨h.length, _, T_c_cells Real.cos Real.sin h 0 0 0 0, ?_⟩
  rw [Heap.block_append_some, if_pos rfl]
  simp

/-- C6: for every `theta`, `d`, `r`, `alpha` (and whatever `cos` and `sin` return), the last
row of `T_c(theta, d, r, alpha)`, cells 12 to 15, is exactly `(0, 0, 0, 1)`. -/
theorem T_c_bottom_row [Zero R] [One R] [Neg R] [Mul R] (cos sin : R → R) (h : Heap R)
    (theta d r alpha : R) :
    ∃ p h' l, T_c cos sin h theta d r alpha = .ok (p, h') ∧ h'.block p = some l ∧
      l[12]? = some 0 ∧ l[13]? = some 0 ∧ l[14]? = some 0 ∧ l[15]? = some 1 := by
  exact ⟨h.length, _, _, T_c_cells cos sin h theta d r alpha,
    Heap.block_append_length _ _ _ rfl, rfl, rfl, rfl, rfl⟩

end Builder

section Composer

variable {R : Type}

/-- C2: for 16-cell matrices `A` and `B` held in distinct blocks, over any number type,
`dot_c(A, B)` succeeds and afterwards cell `4*i+j` of `B` is
`A[4*i] * B[j] + A[4*i+1] * B[4+j] + A[4*i+2] * B[8+j] + A[4*i+3] * B[12+j]` of the original
cells: the sum over `k = 0..3` of `A[4*i+k] * B[4*k+j]`, with the products and the additions
those of the program's own arithmetic, added from left to right. -/
theorem dot_c_product [Zero R] [Add R] [Mul R] (junk : Nat → R) (h : Heap R) (A B : Ptr)
    (a b : List R) (hA : h.block A = some a) (hB : h.block B = some b)
    (ha : a.length = 16) (hb : b.length = 16) (_hAB : A ≠ B) :
    ∃ h' b', dot_c junk h A B = .ok h' ∧ h'.block B = some b' ∧ b'.length = 16 ∧
      ∀ i j, i < 4 → j < 4 →
        b'[4 * i + j]? =
          some (a.getD (4 * i) 0 * b.getD j 0 + a.getD (4 * i + 1) 0 * b.getD (4 + j) 0 +
            a.getD (4 * i + 2) 0 * b.getD (8 + j) 0 +
            a.getD (4 * i + 3) 0 * b.getD (12 + j) 0) := by
  obtain ⟨h', hrun, _, hblk, _⟩ := dot_c_block_cells junk hA hB ha hb
  exact ⟨h', _, hrun, hblk, rfl, fun i j hi hj => productCells_getElem a b i j hi hj⟩

/-- Witness for C2 in double arithmetic: the row `(2^60, 1, -2^60, 0)` times the column
`(1, 1, 1, 0)` leaves 0 in cell 0, the sum `((2^60 + 1) - 2^60) + 0` as the doubles round
it from left to right. -/
theorem dot_c_product_witness :
    (∃ h' b', dot_c (fun _ => Double.nan)
        [some [Double.ofRat (2 ^ 60), 1, Double.ofRat (-2 ^ 60), 0, 0, 1, 0, 0,
           0, 0, 1, 0, 0, 0, 0, 1],
         some [1, 0, 0, 0, 1, 1, 0, 0, 1, 0, 1, 0, 0, 0, 0, 1]] 0 1 = .ok h' ∧
      h'.block 1 = some b' ∧ b'.length = 16 ∧
      ∀ i j, i < 4 → j < 4 →
        b'[4 * i + j]? =
          some
            ([Double.ofRat (2 ^ 60), 1, Double.ofRat (-2 ^ 60), 0, 0, 1, 0, 0,
                0, 0, 1, 0, 0, 0, 0, 1].getD (4 * i) 0 *
              [1, 0, 0, 0, 1, 1, 0, 0, 1, 0, 1, 0, 0, 0, 0, (1 : Double)].getD j 0 +
            [Double.ofRat (2 ^ 60), 1, Double.ofRat (-2 ^ 60), 0, 0, 1, 0, 0,
                0, 0, 1, 0, 0, 0, 0, 1].getD (4 * i + 1) 0 *
              [1, 0, 0, 0, 1, 1, 0, 0, 1, 0, 1, 0, 0, 0, 0, (1 : Double)].getD (4 + j) 0 +
            [Double.ofRat (2 ^ 60), 1, Double.ofRat (-2 ^ 60), 0, 0, 1, 0, 0,
                0, 0, 1, 0, 0, 0, 0, 1].getD (4 * i + 2) 0 *
              [1, 0, 0, 0, 1, 1, 0, 0, 1, 0, 1, 0, 0, 0, 0, (1 : Double)].getD (8 + j) 0 +
            [Double.ofRat (2 ^ 60), 1, Double.ofRat (-2 ^ 60), 0, 0, 1, 0, 0,
                0, 0, 1, 0, 0, 0, 0, 1].getD (4 * i + 3) 0 *
              [1, 0, 0, 0, 1, 1, 0, 0, 1, 0, 1, 0, 0, 0, 0, (1 : Double)].getD (12 + j) 0)) ∧
    dot_c (fun _ => Double.nan)
        [some [Double.ofRat (2 ^ 60), 1, Double.ofRat (-2 ^ 60), 0, 0, 1, 0, 0,
           0, 0, 1, 0, 0, 0, 0, 1],
         some [1, 0, 0, 0, 1, 1, 0, 0, 1, 0, 1, 0, 0, 0, 0, 1]] 0 1 =
      .ok [some [Double.ofRat (2 ^ 60), 1, Double.ofRat (-2 ^ 60), 0, 0, 1, 0, 0,
           0, 0, 1, 0, 0, 0, 0, 1],
         some [0, 1, Double.ofRat (-2 ^ 60), 0, 1, 1, 0, 0, 1, 0, 1, 0, 0, 0, 0, 1],
         none] :=
  ⟨dot_c_product (fun _ => Double.nan)
    [some [Double.ofRat (2 ^ 60), 1, Double.ofRat (-2 ^ 60), 0, 0, 1, 0, 0,
       0, 0, 1, 0, 0, 0, 0, 1],
     some [1, 0, 0, 0, 1, 1, 0, 0, 1, 0, 1, 0, 0, 0, 0, 1]] 0 1 _ _ rfl rfl rfl rfl
    (by decide), by decide!⟩


end Composer

section Frame

variable {R : Type} [CommRing R]

/-- C3: for matrices `A` and `B` held in distinct blocks, `dot_c(A, B)` leaves all cells of
`A` unchanged; `B` is the only block whose contents change. -/
theorem dot_c_frame (junk : Nat → R) (h : Heap R) (A B : Ptr) (a b : List R)
    (hA : h.block A = some a) (hB : h.block B = some b)
    (ha : a.length = 16) (hb : b.length = 16) (hAB : A ≠ B) :
    ∃ h', dot_c junk h A B = .ok h' ∧ h'.block A = some a ∧
      ∀ p, p ≠ B → h'.block p = h.block p := by
  obtain ⟨h', hrun, _, _, hframe⟩ := dot_c_block junk hA hB ha hb
  exact ⟨h', hrun, (hframe A hAB).trans hA, hframe⟩

/-- Witness for C3 on two integer matrices. -/
theorem dot_c_frame_witness :
    ∃ h', dot_c (fun _ => (7 : ℤ))
        [some [1, 2, 3, 4, 5, 6, 7, 8, 9, 10, 11, 12, 13, 14, 15, 16],
         some [1, 0, 2, 0, 0, 1, 0, 0, 3, 0, 1, 0, 0, 0, 0, 1]] 0 1 = .ok h' ∧
      h'.block 0 = some [1, 2, 3, 4, 5, 6, 7, 8, 9, 10, 11, 12, 13, 14, 15, 16] ∧
      ∀ p, p ≠ 1 → h'.block p = Heap.block
        [some [1, 2, 3, 4, 5, 6, 7, 8, 9, 10, 11, 12, 13, 14, 15, (16 : ℤ)],
         some [1, 0, 2, 0, 0, 1, 0, 0, 3, 0, 1, 0, 0, 0, 0, 1]] p :=
  dot_c_frame (fun _ => (7 : ℤ))
    [some [1, 2, 3, 4, 5, 6, 7, 8, 9, 10, 11, 12, 13, 14, 15, 16],
     some [1, 0, 2, 0, 0, 1, 0, 0, 3, 0, 1, 0, 0, 0, 0, 1]] 0 1 _ _ rfl rfl rfl rfl (by decide)

end Frame


section ComposerLaws

variable {R : Type}

/-- C7: `dot_c(I, B)` with `I` the identity matrix leaves a 16-cell matrix `B` unchanged
whenever the cells of `B` are tame (finite numbers): the call succeeds and every cell of `B`
is as before.  Proved for any number type; the hypotheses are what the sums
`1 * x + 0 * y + 0 * z + 0 * w` need, and they hold of every finite double (a negative zero
counted as zero). -/
theorem dot_c_identity_left [Zero R] [One R] [Add R] [Mul R] (junk : Nat → R) (h : Heap R)
    (I B : Ptr) (b : List R)
    (hI : h.block I = some [1, 0, 0, 0, 0, 1, 0, 0, 0, 0, 1, 0, 0, 0, 0, 1])
    (hB : h.block B = some b) (hb : b.length = 16)
    (h0 : Tame (0 : R)) (htame : ∀ x ∈ b, Tame x) :
    ∃ h', dot_c junk h I B = .ok h' ∧ h'.block B = some b := by
  obtain ⟨h', hrun, _, hblk, _⟩ := dot_c_block_cells junk hI hB rfl hb
  refine ⟨h', hrun, ?_⟩
  rw [hblk, productCells_identity b hb h0 htame]

/-- Witness for C7 in double arithmetic, on a matrix of finite doubles. -/
theorem dot_c_identity_left_witness :
    ∃ h', dot_c (fun _ => Double.nan)
        [some [1, 0, 0, 0, 0, 1, 0, 0, 0, 0, 1, 0, 0, 0, 0, 1],
         some [Double.ofRat 0.1, Double.ofRat (-2.5), Double.ofRat 1e300, 0,
           Double.ofRat 0.7648421872844885, Double.ofRat (-0.644217687237691), 1,
           Double.ofRat 5e-324, Double.ofRat 3, Double.ofRat (1 / 3), Double.ofRat (-1e-200),
           Double.ofRat 123456789, 0, 0, 0, 1]] 0 1 = .ok h' ∧
      h'.block 1 = some [Double.ofRat 0.1, Double.ofRat (-2.5), Double.ofRat 1e300, 0,
           Double.ofRat 0.7648421872844885, Double.ofRat (-0.644217687237691), 1,
           Double.ofRat 5e-324, Double.ofRat 3, Double.ofRat (1 / 3), Double.ofRat (-1e-200),
           Double.ofRat 123456789, 0, 0, 0, 1] :=
  dot_c_identity_left (fun _ => Double.nan)
    [some [1, 0, 0, 0, 0, 1, 0, 0, 0, 0, 1, 0, 0, 0, 0, 1],
     some [Double.ofRat 0.1, Double.ofRat (-2.5), Double.ofRat 1e300, 0,
       Double.ofRat 0.7648421872844885, Double.ofRat (-0.644217687237691), 1,
       Double.ofRat 5e-324, Double.ofRat 3, Double.ofRat (1 / 3), Double.ofRat (-1e-200),
       Double.ofRat 123456789, 0, 0, 0, 1]] 0 1 _ rfl rfl rfl (by decide!) (by decide!)

/-- Counterexample to C7 as stated: in double arithmetic, with `B[4] = +inf`, the call
`dot_c(I, B)` changes `B`: cells 0, 8 and 12 become NaN (`0 * inf` is NaN). -/
theorem dot_c_identity_left_infinite :
    dot_c (fun _ => Double.nan)
        [some [1, 0, 0, 0, 0, 1, 0, 0, 0, 0, 1, 0, 0, 0, 0, 1],
         some [1, 0, 0, 0, Double.inf false, 1, 0, 0, 0, 0, 1, 0, 0, 0, 0, 1]] 0 1 =
      .ok [some [1, 0, 0, 0, 0, 1, 0, 0, 0, 0, 1, 0, 0, 0, 0, 1],
         some [Double.nan, 0, 0, 0, Double.inf false, 1, 0, 0, Double.nan, 0, 1, 0,
           Double.nan, 0, 0, 1],
         none] ∧
    ([Double.nan, 0, 0, 0, Double.inf false, 1, 0, 0, Double.nan, 0, 1, 0,
        Double.nan, 0, 0, 1] : List Double) ≠
      [1, 0, 0, 0, Double.inf false, 1, 0, 0, 0, 0, 1, 0, 0, 0, 0, 1] := by
  decide!

end ComposerLaws


section ComposerLaws2

variable {R : Type}

/-- C13: when `A` and `B` are the same 16-cell block `M`, over any number type,
`dot_c(M, M)` succeeds and leaves `M` holding the square of its original contents: new
`M[4*i+j]` is `M[4*i] * M[j] + M[4*i+1] * M[4+j] + M[4*i+2] * M[8+j] + M[4*i+3] * M[12+j]`
of the original cells (the sum over `k` of `M[4*i+k] * M[4*k+j]`, added from left to
right in the program's arithmetic).  No other block changes. -/
theorem dot_c_aliased [Zero R] [Add R] [Mul R] (junk : Nat → R) (h : Heap R) (M : Ptr)
    (m : List R) (hM : h.block M = some m) (hm : m.length = 16) :
    ∃ h' m', dot_c junk h M M = .ok h' ∧ h'.block M = some m' ∧ m'.length = 16 ∧
      (∀ i j, i < 4 → j < 4 →
        m'[4 * i + j]? =
          some (m.getD (4 * i) 0 * m.getD j 0 + m.getD (4 * i + 1) 0 * m.getD (4 + j) 0 +
            m.getD (4 * i + 2) 0 * m.getD (8 + j) 0 +
            m.getD (4 * i + 3) 0 * m.getD (12 + j) 0)) ∧
      ∀ p, p ≠ M → h'.block p = h.block p := by
  obtain ⟨h', hrun, _, hblk, hframe⟩ := dot_c_block_cells junk hM hM hm hm
  exact ⟨h', _, hrun, hblk, rfl, fun i j hi hj => productCells_getElem m m i j hi hj, hframe⟩

/-- Witness for C13 in double arithmetic: the square of a matrix of doubles, cell by cell
as the program rounds it. -/
theorem dot_c_aliased_witness :
    (∃ h' m', dot_c (fun _ => Double.nan)
        [some [Double.ofRat 0.1, Double.ofRat 0.2, 0, 0, Double.ofRat 0.3, Double.ofRat 0.4,
           0, 0, 0, 0, 1, 0, 0, 0, 0, 1]] 0 0 = .ok h' ∧
      h'.block 0 = some m' ∧ m'.length = 16 ∧
      (∀ i j, i < 4 → j < 4 →
        m'[4 * i + j]? =
          some
            ([Double.ofRat 0.1, Double.ofRat 0.2, 0, 0, Double.ofRat 0.3, Double.ofRat 0.4,
                0, 0, 0, 0, 1, 0, 0, 0, 0, 1].getD (4 * i) 0 *
              [Double.ofRat 0.1, Double.ofRat 0.2, 0, 0, Double.ofRat 0.3, Double.ofRat 0.4,
                0, 0, 0, 0, 1, 0, 0, 0, 0, 1].getD j 0 +
            [Double.ofRat 0.1, Double.ofRat 0.2, 0, 0, Double.ofRat 0.3, Double.ofRat 0.4,
                0, 0, 0, 0, 1, 0, 0, 0, 0, 1].getD (4 * i + 1) 0 *
              [Double.ofRat 0.1, Double.ofRat 0.2, 0, 0, Double.ofRat 0.3, Double.ofRat 0.4,
                0, 0, 0, 0, 1, 0, 0, 0, 0, 1].getD (4 + j) 0 +
            [Double.ofRat 0.1, Double.ofRat 0.2, 0, 0, Double.ofRat 0.3, Double.ofRat 0.4,
                0, 0, 0, 0, 1, 0, 0, 0, 0, 1].getD (4 * i + 2) 0 *
              [Double.ofRat 0.1, Double.ofRat 0.2, 0, 0, Double.ofRat 0.3, Double.ofRat 0.4,
                0, 0, 0, 0, 1, 0, 0, 0, 0, 1].getD (8 + j) 0 +
            [Double.ofRat 0.1, Double.ofRat 0.2, 0, 0, Double.ofRat 0.3, Double.ofRat 0.4,
                0, 0, 0, 0, 1, 0, 0, 0, 0, 1].getD (4 * i + 3) 0 *
              [Double.ofRat 0.1, Double.ofRat 0.2, 0, 0, Double.ofRat 0.3, Double.ofRat 0.4,
                0, 0, 0, 0, 1, 0, 0, 0, 0, 1].getD (12 + j) 0)) ∧
      ∀ p, p ≠ 0 → h'.block p =
        Heap.block [some [Double.ofRat 0.1, Double.ofRat 0.2, 0, 0, Double.ofRat 0.3,
          Double.ofRat 0.4, 0, 0, 0, 0, 1, 0, 0, 0, 0, 1]] p) ∧
    dot_c (fun _ => Double.nan)
        [some [Double.ofRat 0.1, Double.ofRat 0.2, 0, 0, Double.ofRat 0.3, Double.ofRat 0.4,
           0, 0, 0, 0, 1, 0, 0, 0, 0, 1]] 0 0 =
      .ok [some [Double.ofRat 0.07, Double.ofRat 0.10000000000000002, 0, 0,
           Double.ofRat 0.15, Double.ofRat 0.22000000000000003, 0, 0, 0, 0, 1, 0, 0, 0, 0, 1],
         none] :=
  ⟨dot_c_aliased (fun _ => Double.nan)
    [some [Double.ofRat 0.1, Double.ofRat 0.2, 0, 0, Double.ofRat 0.3, Double.ofRat 0.4,
       0, 0, 0, 0, 1, 0, 0, 0, 0, 1]] 0 _ rfl rfl, by decide!⟩

end ComposerLaws2


section Invariants

variable {R : Type}

/-- C10: for 16-cell matrices `A` and `B` whose cells 12..15 are `(0, 0, 0, 1)`, with the
cells of `B` tame (finite numbers), `dot_c(A, B)` succeeds and the cells 12..15 of `B` are
again `(0, 0, 0, 1)`; hence after any sequence of `T_c` and `dot_c` calls, started on the
empty heap, every live block is a 16-cell matrix with bottom row `(0, 0, 0, 1)`, provided
the cells of the live blocks are tame at every step of the sequence (a sequence that hands
`dot_c` a pointer that is not live stops with `badPointer`; no other fault occurs).  Proved
for any number type. -/
theorem dot_c_bottom_row [Zero R] [One R] [Neg R] [Add R] [Mul R] (cos sin : R → R)
    (junk : Ptr → Nat → R) (h : Heap R) (A B : Ptr) (a b : List R)
    (hA : h.block A = some a) (hB : h.block B = some b)
    (ha : a.length = 16) (hb : b.length = 16) (hra : BottomRow a) (hrb : BottomRow b)
    (h0 : Tame (0 : R)) (h1 : Tame (1 : R)) (htame : ∀ x ∈ b, Tame x) :
    (∃ h' b', dot_c (junk h.length) h A B = .ok h' ∧ h'.block B = some b' ∧ BottomRow b') ∧
    ∀ cs : List (Call R),
      (∀ n hn p l, run cos sin junk (cs.take n) [] = .ok hn → hn.block p = some l →
        ∀ x ∈ l, Tame x) →
      run cos sin junk cs [] = .error .badPointer ∨
      ∃ h', run cos sin junk cs [] = .ok h' ∧
        ∀ p l, h'.block p = some l → l.length = 16 ∧ BottomRow l := by
  constructor
  · obtain ⟨h', hrun, _, hblk, _⟩ := dot_c_block_cells (junk h.length) hA hB ha hb
    exact ⟨h', _, hrun, hblk, bottomRow_productCells a b hra hrb h0 h1 htame⟩
  · intro cs hT
    refine run_invariant_of cos sin junk BottomRow (fun l => ∀ x ∈ l, Tame x)
      (fun _ _ _ _ => ⟨rfl, rfl, rfl, rfl⟩)
      (fun a b _ _ hPa hPb _ hTb => bottomRow_productCells a b hPa hPb h0 h1 hTb) cs [] ?_ hT
    intro p l hp
    rw [Heap.block_nil] at hp
    cases hp

/-- Witness for C10 in double arithmetic, on two matrices of finite doubles. -/
theorem dot_c_bottom_row_witness :
    (∃ h' b', dot_c (fun _ => Double.nan)
        [some [Double.ofRat 0.1, Double.ofRat 2, Double.ofRat 3, Double.ofRat 4, Double.ofRat 5,
           Double.ofRat 6, Double.ofRat 7, Double.ofRat 8, Double.ofRat 9, Double.ofRat 10,
           Double.ofRat 11, Double.ofRat 12, 0, 0, 0, 1],
         some [1, 0, Double.ofRat 0.7, 0, 0, 1, 0, 0, Double.ofRat (-1e300), 0, 1, 0,
           0, 0, 0, 1]] 0 1 = .ok h' ∧
      h'.block 1 = some b' ∧ BottomRow b') ∧
    ∀ cs : List (Call Double),
      (∀ n hn p l,
        run Double.libmCos Double.libmSin (fun _ _ => Double.nan) (cs.take n) [] = .ok hn →
        hn.block p = some l → ∀ x ∈ l, Tame x) →
      run Double.libmCos Double.libmSin (fun _ _ => Double.nan) cs [] = .error .badPointer ∨
      ∃ h', run Double.libmCos Double.libmSin (fun _ _ => Double.nan) cs [] = .ok h' ∧
        ∀ p l, h'.block p = some l → l.length = 16 ∧ BottomRow l :=
  dot_c_bottom_row Double.libmCos Double.libmSin (fun _ _ => Double.nan)
    [some [Double.ofRat 0.1, Double.ofRat 2, Double.ofRat 3, Double.ofRat 4, Double.ofRat 5,
       Double.ofRat 6, Double.ofRat 7, Double.ofRat 8, Double.ofRat 9, Double.ofRat 10,
       Double.ofRat 11, Double.ofRat 12, 0, 0, 0, 1],
     some [1, 0, Double.ofRat 0.7, 0, 0, 1, 0, 0, Double.ofRat (-1e300), 0, 1, 0,
       0, 0, 0, 1]] 0 1 _ _ rfl rfl rfl rfl (by decide!) (by decide!) (by decide!)
    (by decide!) (by decide!)

/-- Counterexample to C10 as stated: in double arithmetic, with `A = T_c(0, 0, 0, 0)` and
`B = T_c(0, inf, 0, 0)` (both with bottom row `(0, 0, 0, 1)`), `dot_c(A, B)` leaves NaN in
cell 15 of `B`: the sum for that cell holds the product `0 * inf`. -/
theorem dot_c_bottom_row_infinite :
    run Double.libmCos Double.libmSin (fun _ _ => Double.nan)
        [.build 0 0 0 0, .build 0 (Double.inf false) 0 0] [] =
      .ok [some [1, 0, 0, 0, 0, 1, 0, 0, 0, 0, 1, 0, 0, 0, 0, 1],
           some [1, 0, 0, 0, 0, 1, 0, 0, 0, 0, 1, Double.inf false, 0, 0, 0, 1]] ∧
    run Double.libmCos Double.libmSin (fun _ _ => Double.nan)
        [.build 0 0 0 0, .build 0 (Double.inf false) 0 0, .compose 0 1] [] =
      .ok [some [1, 0, 0, 0, 0, 1, 0, 0, 0, 0, 1, 0, 0, 0, 0, 1],
           some [1, 0, 0, Double.nan, 0, 1, 0, Double.nan, 0, 0, 1, Double.inf false,
             0, 0, 0, Double.nan],
           none] ∧
    ¬ BottomRow ([1, 0, 0, Double.nan, 0, 1, 0, Double.nan, 0, 0, 1, Double.inf false,
      0, 0, 0, Double.nan] : List Double) := by
  refine ⟨by decide!, by decide!, by decide!⟩

end Invariants

section Chain

variable {R : Type}

theorem chain_two [Add R] [Mul R] (junk : Ptr → Nat → R) (A B : Ptr) (ps : List Ptr)
    (h : Heap R) :
    chain junk (A :: B :: ps) h = (dot_c (junk h.length) h A B >>= chain junk (B :: ps)) := by
  rw [chain]

theorem chain_one [Add R] [Mul R] (junk : Ptr → Nat → R) (A : Ptr) (h : Heap R) :
    chain junk [A] h = .ok h := by
  rw [chain]
  intro _ _ _ hc
  cases hc

theorem chain_nil [Add R] [Mul R] (junk : Ptr → Nat → R) (h : Heap R) :
    chain junk [] h = .ok h := by
  rw [chain]
  intro _ _ _ hc
  cases hc

/-- The left-to-right fold, with the first buffer already holding any 16-cell matrix. -/
theorem chain_fold [Zero R] [Add R] [Mul R] (junk : Ptr → Nat → R) :
    ∀ (ps : List Ptr) (h : Heap R), ps.Nodup →
      (∀ p ∈ ps, (h.cells p).length = 16) →
      ∃ h', chain junk ps h = .ok h' ∧
        (∀ q, q ∉ ps → h'.block q = h.block q) ∧
        ∀ i (hi : i < ps.length),
          h'.block ps[i] = some (productLeft ((ps.take (i + 1)).map h.cells)) := by
  intro ps
  induction ps with
  | nil =>
    intro h _ _
    exact ⟨h, chain_nil junk h, fun _ _ => rfl, fun i hi => absurd hi (Nat.not_lt_zero i)⟩
  | cons A t ih =>
    intro h hnd hlive
    have hAlen := hlive A (List.mem_cons_self A t)
    have hAblk : h.block A = some (h.cells A) := by
      unfold Heap.cells at hAlen ⊢
      cases hc : h.block A with
      | none => rw [hc] at hAlen; cases hAlen
      | some l => rfl
    cases t with
    | nil =>
      refine ⟨h, chain_one junk A h, fun _ _ => rfl, ?_⟩
      intro i hi
      have hi0 : i = 0 := by simpa using hi
      subst hi0
      exact hAblk
    | cons B t =>
      have hBlen := hlive B (List.mem_cons_of_mem A (List.mem_cons_self B t))
      have hBblk : h.block B = some (h.cells B) := by
        unfold Heap.cells at hBlen ⊢
        cases hc : h.block B with
        | none => rw [hc] at hBlen; cases hBlen
        | some l => rfl
      have hAB : A ≠ B := by
        intro e
        rw [e] at hnd
        exact (List.nodup_cons.1 hnd).1 (List.mem_cons_self B t)
      have hnd' : (B :: t).Nodup := (List.nodup_cons.1 hnd).2
      have hAt : A ∉ B :: t := (List.nodup_cons.1 hnd).1
      have hBt : B ∉ t := (List.nodup_cons.1 hnd').1
      obtain ⟨h1, hrun1, _, hblk1, hframe1⟩ :=
        dot_c_block_cells (junk h.length) hAblk hBblk hAlen hBlen
      have hcellsB : h1.cells B = productCells (h.cells A) (h.cells B) :=
        Heap.cells_of_block hblk1
      have hcells : ∀ p, p ≠ B → h1.cells p = h.cells p := by
        intro p hp
        unfold Heap.cells
        rw [hframe1 p hp]
      have hlive1 : ∀ p ∈ B :: t, (h1.cells p).length = 16 := by
        intro p hp
        by_cases hpB : p = B
        · rw [hpB, hcellsB]
          rfl
        · rw [hcells p hpB]
          exact hlive p (List.mem_cons_of_mem A hp)
      obtain ⟨h', hrun', hframe', hcells'⟩ := ih h1 hnd' hlive1
      refine ⟨h', ?_, ?_, ?_⟩
      · rw [chain_two, hrun1]
        exact hrun'
      · intro q hq
        have hqB : q ≠ B := by
          intro e
          rw [e] at hq
          exact hq (List.mem_cons_of_mem A (List.mem_cons_self B t))
        have hq' : q ∉ B :: t := fun hm => hq (List.mem_cons_of_mem A hm)
        rw [hframe' q hq', hframe1 q hqB]
      · intro i hi
        cases i with
        | zero =>
          show h'.block A = _
          rw [hframe' A hAt, hframe1 A hAB]
          exact hAblk
        | succ k =>
          have hk : k < (B :: t).length := by simpa using hi
          show h'.block (B :: t)[k] = _
          rw [hcells' k hk]
          have hmap : (t.take k).map h1.cells = (t.take k).map h.cells := by
            apply List.map_congr_left
            intro p hp
            refine hcells p ?_
            intro e
            rw [e] at hp
            exact hBt (List.mem_of_mem_take hp)
          show some (productLeft (((B :: t).take (k + 1)).map h1.cells)) =
            some (productLeft (((A :: B :: t).take (k + 1 + 1)).map h.cells))
          rw [List.take_succ_cons, List.take_succ_cons, List.take_succ_cons, List.map_cons,
            List.map_cons, List.map_cons, hmap, hcellsB]
          rfl

/-- C11: for a non-empty list of 16-cell matrices `T1, ..., Tn` held in distinct blocks,
over any number type, the calls `dot_c(T_i, T_{i+1})` for `i = 1, ..., n-1` in this order
all succeed and leave every buffer `T_i` holding the prefix product `T1 * ... * T_i` of the
original matrices, so the last buffer holds `T1 * T2 * ... * Tn`.  The product is the one
the program computes: taken from the left, `((T1 * T2) * T3) * ...`, every factor combined
by the sixteen sums of `dot_c`. -/
theorem chain_prefix_products [Zero R] [Add R] [Mul R] (junk : Ptr → Nat → R) (h : Heap R)
    (ps : List Ptr) (hne : ps ≠ []) (hnd : ps.Nodup)
    (hlive : ∀ p ∈ ps, (h.cells p).length = 16) :
    ∃ h', chain junk ps h = .ok h' ∧
      (∀ i (hi : i < ps.length),
        h'.block ps[i] = some (productLeft ((ps.take (i + 1)).map h.cells))) ∧
      h'.block (ps.getLast hne) = some (productLeft (ps.map h.cells)) := by
  obtain ⟨h', hrun, _, hcells⟩ := chain_fold junk ps h hnd hlive
  refine ⟨h', hrun, hcells, ?_⟩
  have hpos : ps.length - 1 < ps.length :=
    Nat.sub_lt (List.length_pos.2 hne) Nat.one_pos
  have hlast := hcells (ps.length - 1) hpos
  rw [Nat.sub_add_cancel (List.length_pos.2 hne), List.take_length] at hlast
  rw [List.getLast_eq_getElem]
  exact hlast

/-- Witness for C11 in double arithmetic: a chain of three matrices; the last buffer holds
`(T1 * T2) * T3` as the doubles round it, `0.006000000000000001` in cell 0. -/
theorem chain_prefix_products_witness :
    (∃ h', chain (fun _ _ => Double.nan) [0, 1, 2]
        [some [Double.ofRat 0.1, 0, 0, 0, 0, 1, 0, 0, 0, 0, 1, 0, 0, 0, 0, 1],
         some [Double.ofRat 0.2, 0, 0, 0, 0, 1, 0, 0, 0, 0, 1, 0, 0, 0, 0, 1],
         some [Double.ofRat 0.3, 0, 0, 0, 0, 1, 0, 0, 0, 0, 1, 0, 0, 0, 0, 1]] = .ok h' ∧
      (∀ i (hi : i < [0, 1, 2].length),
        h'.block ([0, 1, 2].get ⟨i, hi⟩) = some (productLeft ((([0, 1, 2] : List Ptr).take
          (i + 1)).map (Heap.cells
            [some [Double.ofRat 0.1, 0, 0, 0, 0, 1, 0, 0, 0, 0, 1, 0, 0, 0, 0, 1],
             some [Double.ofRat 0.2, 0, 0, 0, 0, 1, 0, 0, 0, 0, 1, 0, 0, 0, 0, 1],
             some [Double.ofRat 0.3, 0, 0, 0, 0, 1, 0, 0, 0, 0, 1, 0, 0, 0, 0, 1]])))) ∧
      h'.block (([0, 1, 2] : List Ptr).getLast (by decide)) =
        some (productLeft (([0, 1, 2] : List Ptr).map (Heap.cells
            [some [Double.ofRat 0.1, 0, 0, 0, 0, 1, 0, 0, 0, 0, 1, 0, 0, 0, 0, 1],
             some [Double.ofRat 0.2, 0, 0, 0, 0, 1, 0, 0, 0, 0, 1, 0, 0, 0, 0, 1],
             some [Double.ofRat 0.3, 0, 0, 0, 0, 1, 0, 0, 0, 0, 1, 0, 0, 0, 0, 1]])))) ∧
    chain (fun _ _ => Double.nan) [0, 1, 2]
        [some [Double.ofRat 0.1, 0, 0, 0, 0, 1, 0, 0, 0, 0, 1, 0, 0, 0, 0, 1],
         some [Double.ofRat 0.2, 0, 0, 0, 0, 1, 0, 0, 0, 0, 1, 0, 0, 0, 0, 1],
         some [Double.ofRat 0.3, 0, 0, 0, 0, 1, 0, 0, 0, 0, 1, 0, 0, 0, 0, 1]] =
      .ok [some [Double.ofRat 0.1, 0, 0, 0, 0, 1, 0, 0, 0, 0, 1, 0, 0, 0, 0, 1],
         some [Double.ofRat 0.020000000000000004, 0, 0, 0, 0, 1, 0, 0, 0, 0, 1, 0, 0, 0, 0, 1],
         some [Double.ofRat 0.006000000000000001, 0, 0, 0, 0, 1, 0, 0, 0, 0, 1, 0, 0, 0, 0, 1],
         none, none] :=
  ⟨chain_prefix_products (fun _ _ => Double.nan)
    [some [Double.ofRat 0.1, 0, 0, 0, 0, 1, 0, 0, 0, 0, 1, 0, 0, 0, 0, 1],
     some [Double.ofRat 0.2, 0, 0, 0, 0, 1, 0, 0, 0, 0, 1, 0, 0, 0, 0, 1],
     some [Double.ofRat 0.3, 0, 0, 0, 0, 1, 0, 0, 0, 0, 1, 0, 0, 0, 0, 1]] [0, 1, 2]
    (by decide) (by decide) (by decide), by decide!⟩

end Chain

section Pipeline

variable {R : Type}

/-- C9: in double arithmetic, with `A = T_c(pi/2, 0, 0, 0)` and `B = T_c(pi/2, 0, 0, 0)`
(`pi/2` the double `M_PI / 2`), after `dot_c(A, B)` the block `B` holds the cells that
`T_c(pi, 0, 0, 0)` returns, and every cell is within `1e-9` of the rows `(-1, 0, 0, 0)`,
`(0, -1, 0, 0)`, `(0, 0, 1, 0)`, `(0, 0, 0, 1)`.  The C library enters through the values it
returns at the three arguments used: `cos 0 = 1`, `sin 0 = 0`,
`cos (pi/2) = 6.123233995736766e-17`, `sin (pi/2) = 1`, `cos pi = -1` and
`sin pi = 1.2246467991473532e-16`. -/
theorem dot_c_quarter_turns (cos sin : Double → Double)
    (hc0 : cos 0 = 1) (hs0 : sin 0 = 0)
    (hch : cos Double.halfPi = Double.ofRat 6.123233995736766e-17)
    (hsh : sin Double.halfPi = 1)
    (hcp : cos Double.pi = Double.ofRat (-1))
    (hsp : sin Double.pi = Double.ofRat 1.2246467991473532e-16)
    (junk : Nat → Double) (h : Heap Double) :
    ∃ A h1 B h2 h3 l, T_c cos sin h Double.halfPi 0 0 0 = .ok (A, h1) ∧
      T_c cos sin h1 Double.halfPi 0 0 0 = .ok (B, h2) ∧
      dot_c junk h2 A B = .ok h3 ∧ h3.block B = some l ∧
      (∃ P h4, T_c cos sin h3 Double.pi 0 0 0 = .ok (P, h4) ∧ h4.block P = some l) ∧
      ∃ q : List ℚ, Reads Double.value l q ∧
        ∀ i, i < 16 →
          |q.getD i 0 - ([-1, 0, 0, 0, 0, -1, 0, 0, 0, 0, 1, 0, 0, 0, 0, 1] : List ℚ).getD i 0|
            ≤ 1e-9 := by
  obtain ⟨A, h1, B, h2, h3, hA, hB, _, hrun, _, hblk, _⟩ :=
    T_c_T_c_dot_c cos sin junk h Double.halfPi 0 0 0 Double.halfPi 0 0 0
  obtain ⟨P, h4, hP, hPblk⟩ := T_c_block cos sin h3 Double.pi 0 0 0
  rw [hc0, hs0, hch, hsh] at hblk
  rw [hc0, hs0, hcp, hsp] at hPblk
  have e1 : productCells
      [Double.ofRat 6.123233995736766e-17, (-(1 : Double)) * 1, (1 : Double) * 0,
        0 * Double.ofRat 6.123233995736766e-17, 1, Double.ofRat 6.123233995736766e-17 * 1,
        (-Double.ofRat 6.123233995736766e-17) * 0, 0 * 1, 0, 0, 1, 0, 0, 0, 0, 1]
      [Double.ofRat 6.123233995736766e-17, (-(1 : Double)) * 1, (1 : Double) * 0,
        0 * Double.ofRat 6.123233995736766e-17, 1, Double.ofRat 6.123233995736766e-17 * 1,
        (-Double.ofRat 6.123233995736766e-17) * 0, 0 * 1, 0, 0, 1, 0, 0, 0, 0, 1] =
      [Double.ofRat (-1), Double.ofRat (-1.2246467991473532e-16), 0, 0,
        Double.ofRat 1.2246467991473532e-16, Double.ofRat (-1), 0, 0, 0, 0, 1, 0,
        0, 0, 0, 1] := by decide!
  have e2 : ([Double.ofRat (-1), (-Double.ofRat 1.2246467991473532e-16) * 1,
        Double.ofRat 1.2246467991473532e-16 * 0, 0 * Double.ofRat (-1),
        Double.ofRat 1.2246467991473532e-16, Double.ofRat (-1) * 1,
        (-Double.ofRat (-1)) * 0, 0 * Double.ofRat 1.2246467991473532e-16,
        0, 0, 1, 0, 0, 0, 0, 1] : List Double) =
      [Double.ofRat (-1), Double.ofRat (-1.2246467991473532e-16), 0, 0,
        Double.ofRat 1.2246467991473532e-16, Double.ofRat (-1), 0, 0, 0, 0, 1, 0,
        0, 0, 0, 1] := by decide!
  rw [e1] at hblk
  rw [e2] at hPblk
  refine ⟨A, h1, B, h2, h3, _, hA, hB, hrun, hblk, ⟨P, h4, hP, hPblk⟩,
    [-1, -(4967757600021511 / 2 ^ 105), 0, 0, 4967757600021511 / 2 ^ 105, -1, 0, 0,
      0, 0, 1, 0, 0, 0, 0, 1], by decide!, ?_⟩
  intro i hi
  interval_cases i <;> norm_num [abs_le]

/-- Witness for C9 with the tabulated values of the C library. -/
theorem dot_c_quarter_turns_witness :
    ∃ A h1 B h2 h3 l,
      T_c Double.libmCos Double.libmSin [] Double.halfPi 0 0 0 = .ok (A, h1) ∧
      T_c Double.libmCos Double.libmSin h1 Double.halfPi 0 0 0 = .ok (B, h2) ∧
      dot_c (fun _ => Double.nan) h2 A B = .ok h3 ∧ h3.block B = some l ∧
      (∃ P h4, T_c Double.libmCos Double.libmSin h3 Double.pi 0 0 0 = .ok (P, h4) ∧
        h4.block P = some l) ∧
      ∃ q : List ℚ, Reads Double.value l q ∧
        ∀ i, i < 16 →
          |q.getD i 0 - ([-1, 0, 0, 0, 0, -1, 0, 0, 0, 0, 1, 0, 0, 0, 0, 1] : List ℚ).getD i 0|
            ≤ 1e-9 :=
  dot_c_quarter_turns Double.libmCos Double.libmSin (by decide!) (by decide!) (by decide!)
    (by decide!) (by decide!) (by decide!) (fun _ => Double.nan) []

end Pipeline

section Factorisation

variable {R : Type}

/-- C14: with `A = T_c(theta, d, 0, 0)` and `B = T_c(0, 0, r, alpha)`, after `dot_c(A, B)`
the block `B` holds the cells that `T_c(theta, d, r, alpha)` returns, whenever the numbers
involved are tame (finite): `cos 0 = 1`, `sin 0 = 0`, `-0 = 0`, the inputs `d` and `r`, the
four values of `cos` and `sin`, their negatives and the six products of the result are
tame, a minus sign moves through the three products in which it occurs, and `r` commutes
with `cos theta` and `sin theta`.  Proved for any number type; every finite double meets
these conditions. -/
theorem T_c_factorisation [Zero R] [One R] [Neg R] [Add R] [Mul R] (cos sin : R → R)
    (junk : Nat → R) (h : Heap R) (theta d r alpha : R)
    (hc0 : cos 0 = 1) (hs0 : sin 0 = 0) (hn0 : -(0 : R) = 0)
    (htame : ∀ x ∈ [0, 1, d, r, cos theta, sin theta, -cos theta, -sin theta,
        cos alpha, sin alpha, -sin alpha, (-sin theta) * cos alpha, sin theta * sin alpha,
        r * cos theta, cos theta * cos alpha, (-cos theta) * sin alpha, r * sin theta],
      Tame x)
    (hneg : (-1) * sin alpha = -sin alpha ∧
      (-sin theta) * (-sin alpha) = sin theta * sin alpha ∧
      cos theta * (-sin alpha) = (-cos theta) * sin alpha)
    (hcomm : cos theta * r = r * cos theta ∧ sin theta * r = r * sin theta) :
    ∃ A h1 B h2 h3 l, T_c cos sin h theta d 0 0 = .ok (A, h1) ∧
      T_c cos sin h1 0 0 r alpha = .ok (B, h2) ∧
      dot_c junk h2 A B = .ok h3 ∧ h3.block B = some l ∧
      ∃ P h4, T_c cos sin h3 theta d r alpha = .ok (P, h4) ∧ h4.block P = some l := by
  obtain ⟨A, h1, B, h2, h3, hA, hB, _, hrun, _, hblk, _⟩ :=
    T_c_T_c_dot_c cos sin junk h theta d 0 0 0 0 r alpha
  obtain ⟨P, h4, hP, hPblk⟩ := T_c_block cos sin h3 theta d r alpha
  refine ⟨A, h1, B, h2, h3, _, hA, hB, hrun, hblk, P, h4, hP, ?_⟩
  rw [hPblk]
  have z1 : ∀ x, x ∈ [0, 1, d, r, cos theta, sin theta, -cos theta, -sin theta,
        cos alpha, sin alpha, -sin alpha, (-sin theta) * cos alpha, sin theta * sin alpha,
        r * cos theta, cos theta * cos alpha, (-cos theta) * sin alpha, r * sin theta] →
      0 * x = 0 := fun x hx => (htame x hx).1
  have z2 : ∀ x, x ∈ [0, 1, d, r, cos theta, sin theta, -cos theta, -sin theta,
        cos alpha, sin alpha, -sin alpha, (-sin theta) * cos alpha, sin theta * sin alpha,
        r * cos theta, cos theta * cos alpha, (-cos theta) * sin alpha, r * sin theta] →
      x * 0 = 0 := fun x hx => (htame x hx).2.1
  have o1 : ∀ x, x ∈ [0, 1, d, r, cos theta, sin theta, -cos theta, -sin theta,
        cos alpha, sin alpha, -sin alpha, (-sin theta) * cos alpha, sin theta * sin alpha,
        r * cos theta, cos theta * cos alpha, (-cos theta) * sin alpha, r * sin theta] →
      1 * x = x := fun x hx => (htame x hx).2.2.1
  have o2 : ∀ x, x ∈ [0, 1, d, r, cos theta, sin theta, -cos theta, -sin theta,
        cos alpha, sin alpha, -sin alpha, (-sin theta) * cos alpha, sin theta * sin alpha,
        r * cos theta, cos theta * cos alpha, (-cos theta) * sin alpha, r * sin theta] →
      x * 1 = x := fun x hx => (htame x hx).2.2.2.1
  have a1 : ∀ x, x ∈ [0, 1, d, r, cos theta, sin theta, -cos theta, -sin theta,
        cos alpha, sin alpha, -sin alpha, (-sin theta) * cos alpha, sin theta * sin alpha,
        r * cos theta, cos theta * cos alpha, (-cos theta) * sin alpha, r * sin theta] →
      x + 0 = x := fun x hx => (htame x hx).2.2.2.2.1
  have a2 : ∀ x, x ∈ [0, 1, d, r, cos theta, sin theta, -cos theta, -sin theta,
        cos alpha, sin alpha, -sin alpha, (-sin theta) * cos alpha, sin theta * sin alpha,
        r * cos theta, cos theta * cos alpha, (-cos theta) * sin alpha, r * sin theta] →
      0 + x = x := fun x hx => (htame x hx).2.2.2.2.2
  congr 1
  simp only [productCells, hc0, hs0, hn0, List.getD_cons_zero, List.getD_cons_succ,
    hneg.1, hneg.2.1, hneg.2.2, hcomm.1, hcomm.2,
    z1, z2, o1, o2, a1, a2, List.mem_cons, List.mem_singleton, true_or, or_true]

/-- Witness for C14 in double arithmetic, at `theta = 0.7`, `d = 2.5`, `r = 1.25`,
`alpha = 1.3`, with the values the C library returns there. -/
theorem T_c_factorisation_witness :
    ∃ A h1 B h2 h3 l,
      T_c Double.libmCos Double.libmSin [] (Double.ofRat 0.7) (Double.ofRat 2.5) 0 0 =
        .ok (A, h1) ∧
      T_c Double.libmCos Double.libmSin h1 0 0 (Double.ofRat 1.25) (Double.ofRat 1.3) =
        .ok (B, h2) ∧
      dot_c (fun _ => Double.nan) h2 A B = .ok h3 ∧ h3.block B = some l ∧
      ∃ P h4, T_c Double.libmCos Double.libmSin h3 (Double.ofRat 0.7) (Double.ofRat 2.5)
          (Double.ofRat 1.25) (Double.ofRat 1.3) = .ok (P, h4) ∧
        h4.block P = some l :=
  T_c_factorisation Double.libmCos Double.libmSin (fun _ => Double.nan) []
    (Double.ofRat 0.7) (Double.ofRat 2.5) (Double.ofRat 1.25) (Double.ofRat 1.3)
    (by decide!) (by decide!) (by decide!) (by decide!) (by decide!) (by decide!)

/-- Counterexample to C14 as stated: in double arithmetic, at `theta = 0`, `d = inf`,
`r = 0`, `alpha = 0`, the product of `T_c(0, inf, 0, 0)` and `T_c(0, 0, 0, 0)` has the row
`(NaN, NaN, NaN, inf)` where `T_c(0, inf, 0, 0)` has `(0, 0, 1, inf)`: the sums for that row
hold the product `inf * 0`. -/
theorem T_c_factorisation_infinite :
    run Double.libmCos Double.libmSin (fun _ _ => Double.nan)
        [.build 0 (Double.inf false) 0 0, .build 0 0 0 0, .compose 0 1,
         .build 0 (Double.inf false) 0 0] [] =
      .ok [some [1, 0, 0, 0, 0, 1, 0, 0, 0, 0, 1, Double.inf false, 0, 0, 0, 1],
           some [1, 0, 0, 0, 0, 1, 0, 0, Double.nan, Double.nan, Double.nan, Double.inf false,
             0, 0, 0, 1],
           none,
           some [1, 0, 0, 0, 0, 1, 0, 0, 0, 0, 1, Double.inf false, 0, 0, 0, 1]] ∧
    ([1, 0, 0, 0, 0, 1, 0, 0, Double.nan, Double.nan, Double.nan, Double.inf false,
        0, 0, 0, 1] : List Double) ≠
      [1, 0, 0, 0, 0, 1, 0, 0, 0, 0, 1, Double.inf false, 0, 0, 0, 1] := by
  refine ⟨by decide!, by decide!⟩

end Factorisation

section Rotations

variable {R : Type}

end Rotations

section Orthonormality

/-- C5: for every `theta` and `alpha` (and every `d` and `r`), the upper-left 3x3 block of
`T_c(theta, d, r, alpha)` is orthonormal up to rounding: if `cos` and `sin` return their
values with an error of at most `u` (and of absolute value at most 1) and a product of two
numbers of absolute value at most 1 is computed with an error of at most `u`, then the dot
product of a row with itself, and of a column with itself, is within `18 * u + 27 * u ^ 2`
of 1, and that of two distinct rows, or two distinct columns, is within that bound of 0.
The cells are real numbers, `fmul` is the multiplication of the program; with `u = 0`
(exact `cos`, `sin` and products) the block is exactly orthonormal. -/
theorem T_c_orthonormal (u : ℝ) (fmul : ℝ → ℝ → ℝ) (cosF sinF : ℝ → ℝ)
    (hmul : ∀ x y : ℝ, |x| ≤ 1 → |y| ≤ 1 → |fmul x y - x * y| ≤ u)
    (hcos : ∀ x, |cosF x - Real.cos x| ≤ u ∧ |cosF x| ≤ 1)
    (hsin : ∀ x, |sinF x - Real.sin x| ≤ u ∧ |sinF x| ≤ 1)
    (h : Heap ℝ) (theta d r alpha : ℝ) :
    ∃ p h' l, @T_c ℝ _ _ _ ⟨fmul⟩ cosF sinF h theta d r alpha = .ok (p, h') ∧
      h'.block p = some l ∧
      (∀ i j : Fin 3, |∑ k, rotBlock l i k * rotBlock l j k - (if i = j then 1 else 0)| ≤
        18 * u + 27 * u ^ 2) ∧
      (∀ i j : Fin 3, |∑ k, rotBlock l k i * rotBlock l k j - (if i = j then 1 else 0)| ≤
        18 * u + 27 * u ^ 2) := by
  have hQ := T_c_cells_orthonormal theta d r alpha
  have hM := T_c_cells_near u fmul cosF sinF hmul hcos hsin theta d r alpha
  refine ⟨h.length, _, _, @T_c_cells ℝ _ _ _ ⟨fmul⟩ cosF sinF h theta d r alpha,
    Heap.block_append_length _ _ _ rfl, ?_, ?_⟩
  · intro i j
    have e : 18 * u + 27 * u ^ 2 = 6 * (3 * u) + 3 * (3 * u) ^ 2 := by ring
    rw [e]
    exact rows_near_orthonormal hQ.1 hM i j
  · intro i j
    have e : 18 * u + 27 * u ^ 2 = 6 * (3 * u) + 3 * (3 * u) ^ 2 := by ring
    rw [e]
    exact cols_near_orthonormal hQ.2 hM i j

/-- Witness for C5: exact real arithmetic with the real `cos` and `sin` (`u = 0`), where
the block is exactly orthonormal. -/
theorem T_c_orthonormal_witness :
    ∃ p h' l, @T_c ℝ _ _ _ ⟨fun x y => x * y⟩ Real.cos Real.sin [] 1 2 3 4 = .ok (p, h') ∧
      h'.block p = some l ∧
      (∀ i j : Fin 3, |∑ k, rotBlock l i k * rotBlock l j k - (if i = j then 1 else 0)| ≤
        18 * 0 + 27 * (0 : ℝ) ^ 2) ∧
      (∀ i j : Fin 3, |∑ k, rotBlock l k i * rotBlock l k j - (if i = j then 1 else 0)| ≤
        18 * 0 + 27 * (0 : ℝ) ^ 2) :=
  T_c_orthonormal 0 (fun x y => x * y) Real.cos Real.sin
    (fun x y _ _ => by simp)
    (fun x => ⟨by simp, Real.abs_cos_le_one x⟩)
    (fun x => ⟨by simp, Real.abs_sin_le_one x⟩) [] 1 2 3 4

end Orthonormality

section OrthonormalityFails

/-- Counterexample to C5 as stated: in double arithmetic, at `theta = 0.7` and
`alpha = 1.3` (with the values the C library returns there), the upper-left 3x3 block of
`T_c(0.7, 0, 0, 1.3)` is not orthonormal: the exact values of its cells have neither
orthonormal rows nor orthonormal columns, and the dot product of rows 0 and 1 computed in
double arithmetic is `5.551115123125783e-17`, not 0. -/
theorem T_c_orthonormal_rounds :
    run Double.libmCos Double.libmSin (fun _ _ => Double.nan)
        [.build (Double.ofRat 0.7) 0 0 (Double.ofRat 1.3)] [] =
      .ok [some [Double.ofRat 0.7648421872844885, Double.ofRat (-0.1723274767153231),
        Double.ofRat 0.6207412257284103, 0,
        Double.ofRat 0.644217687237691, Double.ofRat 0.20459438918126793,
        Double.ofRat (-0.7369699501103586), 0,
        0, Double.ofRat 0.963558185417193, Double.ofRat 0.26749882862458735, 0,
        0, 0, 0, 1]] ∧
    Double.ofRat 0.7648421872844885 * Double.ofRat 0.644217687237691 +
        Double.ofRat (-0.1723274767153231) * Double.ofRat 0.20459438918126793 +
        Double.ofRat 0.6207412257284103 * Double.ofRat (-0.7369699501103586) =
      Double.ofRat 5.551115123125783e-17 ∧
    ∃ q : List ℚ,
      Reads Double.value
        [Double.ofRat 0.7648421872844885, Double.ofRat (-0.1723274767153231),
          Double.ofRat 0.6207412257284103, 0,
          Double.ofRat 0.644217687237691, Double.ofRat 0.20459438918126793,
          Double.ofRat (-0.7369699501103586), 0,
          0, Double.ofRat 0.963558185417193, Double.ofRat 0.26749882862458735, 0,
          0, 0, 0, 1] q ∧
      ¬ RowsOrthonormal (rotBlock q) ∧ ¬ ColsOrthonormal (rotBlock q) := by
  refine ⟨by decide!, by decide!,
    [6889085979303315 / 2 ^ 53, -(776093959920827 / 2 ^ 52), 5591139905767947 / 2 ^ 53, 0,
      725324634047287 / 2 ^ 50, 1842822429757705 / 2 ^ 53, -(414877199087533 / 2 ^ 49), 0,
      0, 8678960569589323 / 2 ^ 53, 4818830499662943 / 2 ^ 54, 0,
      0, 0, 0, 1], by decide!, ?_, ?_⟩
  · intro hrow
    have h00 := hrow.1 0
    rw [Fin.sum_univ_three] at h00
    revert h00
    show ¬ ((6889085979303315 / 2 ^ 53 : ℚ) * (6889085979303315 / 2 ^ 53) +
      -(776093959920827 / 2 ^ 52) * -(776093959920827 / 2 ^ 52) +
      5591139905767947 / 2 ^ 53 * (5591139905767947 / 2 ^ 53) = 1)
    norm_num
  · intro hcol
    have h00 := hcol.1 0
    rw [Fin.sum_univ_three] at h00
    revert h00
    show ¬ ((6889085979303315 / 2 ^ 53 : ℚ) * (6889085979303315 / 2 ^ 53) +
      725324634047287 / 2 ^ 50 * (725324634047287 / 2 ^ 50) + 0 * 0 = 1)
    norm_num

end OrthonormalityFails

section Determinant

/-- C18: for every `theta`, `d`, `r`, `alpha`, the determinant of the upper-left 3x3 block
of `T_c(theta, d, r, alpha)` is 1 up to rounding: if `cos` and `sin` return their values
with an error of at most `u` (and of absolute value at most 1) and a product of two numbers
of absolute value at most 1 is computed with an error of at most `u`, the determinant is
within `54 * u + 162 * u ^ 2 + 162 * u ^ 3` of 1; the determinant of the whole 4x4 matrix
is the same number, and the matrix is invertible when that bound is below 1.  The cells are
real numbers, `fmul` is the multiplication of the program; with `u = 0` (exact `cos`, `sin`
and products) the determinant is exactly 1. -/
theorem T_c_det_one (u : ℝ) (fmul : ℝ → ℝ → ℝ) (cosF sinF : ℝ → ℝ)
    (hmul : ∀ x y : ℝ, |x| ≤ 1 → |y| ≤ 1 → |fmul x y - x * y| ≤ u)
    (hcos : ∀ x, |cosF x - Real.cos x| ≤ u ∧ |cosF x| ≤ 1)
    (hsin : ∀ x, |sinF x - Real.sin x| ≤ u ∧ |sinF x| ≤ 1)
    (h : Heap ℝ) (theta d r alpha : ℝ) :
    ∃ p h' l, @T_c ℝ _ _ _ ⟨fmul⟩ cosF sinF h theta d r alpha = .ok (p, h') ∧
      h'.block p = some l ∧
      |(rotBlock l).det - 1| ≤ 54 * u + 162 * u ^ 2 + 162 * u ^ 3 ∧
      (toMatrix l).det = (rotBlock l).det ∧
      (54 * u + 162 * u ^ 2 + 162 * u ^ 3 < 1 → IsUnit (toMatrix l)) := by
  have hQ := T_c_cells_orthonormal theta d r alpha
  have hM := T_c_cells_near u fmul cosF sinF hmul hcos hsin theta d r alpha
  have hdet := det_near (fun i k => abs_entry_le_one hQ.1 i k) hM
  rw [T_c_cells_det theta d r alpha] at hdet
  have e : 18 * (3 * u) + 18 * (3 * u) ^ 2 + 6 * (3 * u) ^ 3 =
      54 * u + 162 * u ^ 2 + 162 * u ^ 3 := by ring
  rw [e] at hdet
  have h4 := det_toMatrix_bottom (cosF theta) (fmul (-sinF theta) (cosF alpha))
    (fmul (sinF theta) (sinF alpha)) (fmul r (cosF theta)) (sinF theta)
    (fmul (cosF theta) (cosF alpha)) (fmul (-cosF theta) (sinF alpha)) (fmul r (sinF theta))
    0 (sinF alpha) (cosF alpha) d
  refine ⟨h.length, _, _, @T_c_cells ℝ _ _ _ ⟨fmul⟩ cosF sinF h theta d r alpha,
    Heap.block_append_length _ _ _ rfl, hdet, h4, ?_⟩
  intro hlt
  rw [Matrix.isUnit_iff_isUnit_det, isUnit_iff_ne_zero]
  intro h0
  have h3 : (rotBlock
      [cosF theta, fmul (-sinF theta) (cosF alpha), fmul (sinF theta) (sinF alpha),
        fmul r (cosF theta),
        sinF theta, fmul (cosF theta) (cosF alpha), fmul (-cosF theta) (sinF alpha),
        fmul r (sinF theta),
        0, sinF alpha, cosF alpha, d,
        0, 0, 0, 1]).det = 0 := h4.symm.trans h0
  rw [h3, zero_sub, abs_neg, abs_one] at hdet
  linarith

/-- Witness for C18: exact real arithmetic with the real `cos` and `sin` (`u = 0`), where
the determinant is exactly 1. -/
theorem T_c_det_one_witness :
    ∃ p h' l, @T_c ℝ _ _ _ ⟨fun x y => x * y⟩ Real.cos Real.sin [] 1 2 3 4 = .ok (p, h') ∧
      h'.block p = some l ∧
      |(rotBlock l).det - 1| ≤ 54 * 0 + 162 * (0 : ℝ) ^ 2 + 162 * (0 : ℝ) ^ 3 ∧
      (toMatrix l).det = (rotBlock l).det ∧
      (54 * 0 + 162 * (0 : ℝ) ^ 2 + 162 * (0 : ℝ) ^ 3 < 1 → IsUnit (toMatrix l)) :=
  T_c_det_one 0 (fun x y => x * y) Real.cos Real.sin
    (fun x y _ _ => by simp)
    (fun x => ⟨by simp, Real.abs_cos_le_one x⟩)
    (fun x => ⟨by simp, Real.abs_sin_le_one x⟩) [] 1 2 3 4

/-- Counterexample to C18 as stated: in double arithmetic, at `theta = 0.7` and
`alpha = 1.3` (with the values the C library returns there), the determinant of the
upper-left 3x3 block of `T_c(0.7, 0, 0, 1.3)`, taken of the exact values of its cells, is not
1 (it exceeds 1 by about `8.1e-18`). -/
theorem T_c_det_one_rounds :
    run Double.libmCos Double.libmSin (fun _ _ => Double.nan)
        [.build (Double.ofRat 0.7) 0 0 (Double.ofRat 1.3)] [] =
      .ok [some [Double.ofRat 0.7648421872844885, Double.ofRat (-0.1723274767153231),
        Double.ofRat 0.6207412257284103, 0,
        Double.ofRat 0.644217687237691, Double.ofRat 0.20459438918126793,
        Double.ofRat (-0.7369699501103586), 0,
        0, Double.ofRat 0.963558185417193, Double.ofRat 0.26749882862458735, 0,
        0, 0, 0, 1]] ∧
    ∃ q : List ℚ,
      Reads Double.value
        [Double.ofRat 0.7648421872844885, Double.ofRat (-0.1723274767153231),
          Double.ofRat 0.6207412257284103, 0,
          Double.ofRat 0.644217687237691, Double.ofRat 0.20459438918126793,
          Double.ofRat (-0.7369699501103586), 0,
          0, Double.ofRat 0.963558185417193, Double.ofRat 0.26749882862458735, 0,
          0, 0, 0, 1] q ∧
      (rotBlock q).det ≠ 1 ∧ (toMatrix q).det ≠ 1 := by
  have hd : (rotBlock
      ([6889085979303315 / 2 ^ 53, -(776093959920827 / 2 ^ 52), 5591139905767947 / 2 ^ 53, 0,
        725324634047287 / 2 ^ 50, 1842822429757705 / 2 ^ 53, -(414877199087533 / 2 ^ 49), 0,
        0, 8678960569589323 / 2 ^ 53, 4818830499662943 / 2 ^ 54, 0,
        0, 0, 0, 1] : List ℚ)).det ≠ 1 := by
    rw [rotBlock_cells, Matrix.det_fin_three]
    simp only [Matrix.of_apply, Matrix.cons_val_zero, Matrix.cons_val_one, Matrix.head_cons,
      Matrix.cons_val_two, Matrix.tail_cons]
    norm_num
  refine ⟨by decide!,
    [6889085979303315 / 2 ^ 53, -(776093959920827 / 2 ^ 52), 5591139905767947 / 2 ^ 53, 0,
      725324634047287 / 2 ^ 50, 1842822429757705 / 2 ^ 53, -(414877199087533 / 2 ^ 49), 0,
      0, 8678960569589323 / 2 ^ 53, 4818830499662943 / 2 ^ 54, 0,
      0, 0, 0, 1], by decide!, hd, ?_⟩
  rw [det_toMatrix_bottom]
  exact hd

end Determinant
section Rigidity

variable {R : Type}

end Rigidity

section RigidityWitness

end RigidityWitness

section RigidityFails

end RigidityFails
end URKinematics
